import Mathlib

/-! # LiquidCrystalEAX

A shallow embedding of the Arduino driver for the Epson EA-X alphanumeric LCD
controller (`LiquidCrystalEAX.h`, `LiquidCrystalEAX.cpp`).

* The Arduino core calls (`pinMode`, `digitalWrite`, `digitalRead`, `delay`,
  `delayMicroseconds`, `tone`, `noTone`, `millis`) are recorded, in call order, in
  a trace of `Event`s.  The two calls that return data from the outside
  (`millis`, `digitalRead`) take their result from a `World`: the value returned
  by the k-th call of each.
* The only unbounded loop of the driver is the busy-poll of `waitUntilNotBusy`.
  It is given fuel (one unit per evaluation of the loop condition); when the fuel
  runs out the outcome is `Outcome.hung`, carrying the trace produced so far.
* What the C++ language leaves to the platform (the width of `int`, whether plain
  `char` is signed) is a `Platform` parameter.
-/

namespace EAX

/-! ## Platform and machine types -/

/-- The implementation-defined properties of the C++ platform the driver relies on. -/
structure Platform where
  /-- Width in bits of the type int. -/
  intBits : Nat
  /-- Whether plain char is a signed type. -/
  charSigned : Bool
  deriving DecidableEq

/-- The 8-bit AVR boards (avr-gcc): 16-bit int, plain char is signed. -/
def avr : Platform := ⟨16, true⟩

/-- The 32-bit ARM boards (arm-none-eabi-gcc): 32-bit int, plain char is unsigned. -/
def arm : Platform := ⟨32, false⟩

/-- An 8-bit storage unit: the Arduino type byte, and the object representation of a char. -/
abbrev Byte := Fin 256

/-- The value of a char object with representation c, after promotion to int. -/
def charValue (p : Platform) (c : Byte) : Int :=
  if p.charSigned = true ∧ 128 ≤ c.val then (c.val : Int) - 256 else (c.val : Int)

/-- The smallest value of the type int. -/
def intMin (p : Platform) : Int := -((2 : Int) ^ (p.intBits - 1))

/-- The largest value of the type int. -/
def intMax (p : Platform) : Int := (2 : Int) ^ (p.intBits - 1) - 1

/-- Reduction of a mathematical integer into the two's complement range of int. -/
def wrapInt (p : Platform) (x : Int) : Int :=
  (x + (2 : Int) ^ (p.intBits - 1)) % (2 : Int) ^ p.intBits - (2 : Int) ^ (p.intBits - 1)

/-- Logic level of a digital pin. -/
inductive Level where
  | LOW
  | HIGH
  deriving DecidableEq

/-- Pin configuration accepted by pinMode. -/
inductive PinMode where
  | INPUT
  | OUTPUT
  | INPUT_PULLUP
  deriving DecidableEq

/-- One call into the Arduino core, with its arguments (and its result, for the
two calls that return one). -/
inductive Event where
  | pinMode (pin : Int) (mode : PinMode)
  | digitalWrite (pin : Int) (val : Level)
  | digitalRead (pin : Int) (val : Level)
  | delay (ms : Nat)
  | delayMicroseconds (us : Nat)
  | tone (pin : Int) (frequency : Nat)
  | noTone (pin : Int)
  | millis (val : Nat)
  deriving DecidableEq

/-- The outside of the driver: what the k-th call of millis and the k-th call of
digitalRead return. -/
structure World where
  /-- Reading of the millisecond clock at its k-th call. -/
  millisAt : Nat → Nat
  /-- Level sampled by the k-th call of digitalRead. -/
  readAt : Nat → Level

/-- State of the hardware abstraction layer: the calls made so far, and how many
clock readings and pin samples have been consumed. -/
structure Hal where
  trace : List Event
  millisCalls : Nat
  readCalls : Nat
  deriving DecidableEq

/-- Outcome of running driver code: it returned a value, or it was still inside a
busy-poll when the fuel ran out. Both carry the state reached. -/
inductive Outcome (α : Type) where
  | done (val : α) (s : Hal)
  | hung (s : Hal)
  deriving DecidableEq

/-- The state an outcome carries. -/
def Outcome.state {α : Type} : Outcome α → Hal
  | .done _ s => s
  | .hung s => s

/-- Sequencing: the continuation runs only when the first part returned. -/
def Outcome.bind {α β : Type} (o : Outcome α) (f : α → Hal → Outcome β) : Outcome β :=
  match o with
  | .done a s => f a s
  | .hung s => .hung s

/-- Sequencing of code that returns no value. -/
def Outcome.andThen {α β : Type} (o : Outcome α) (f : Hal → Outcome β) : Outcome β :=
  o.bind (fun _ s => f s)

/-! ## Arduino core calls -/

/-- Append one call to the trace. -/
def Hal.emit (s : Hal) (e : Event) : Hal :=
  { s with trace := s.trace ++ [e] }

/-- Append several calls to the trace. -/
def Hal.emits (s : Hal) (es : List Event) : Hal :=
  { s with trace := s.trace ++ es }

def pinMode (pin : Int) (mode : PinMode) (s : Hal) : Hal :=
  s.emit (.pinMode pin mode)

def digitalWrite (pin : Int) (val : Level) (s : Hal) : Hal :=
  s.emit (.digitalWrite pin val)

def delay (ms : Nat) (s : Hal) : Hal :=
  s.emit (.delay ms)

def delayMicroseconds (us : Nat) (s : Hal) : Hal :=
  s.emit (.delayMicroseconds us)

def tone (pin : Int) (frequency : Nat) (s : Hal) : Hal :=
  s.emit (.tone pin frequency)

def noTone (pin : Int) (s : Hal) : Hal :=
  s.emit (.noTone pin)

/-- The millisecond clock, an unsigned long (32 bits). -/
def millis (w : World) (s : Hal) : Nat × Hal :=
  (w.millisAt s.millisCalls % 4294967296,
   { trace := s.trace ++ [.millis (w.millisAt s.millisCalls % 4294967296)],
     millisCalls := s.millisCalls + 1,
     readCalls := s.readCalls })

def digitalRead (w : World) (pin : Int) (s : Hal) : Level × Hal :=
  (w.readAt s.readCalls,
   { trace := s.trace ++ [.digitalRead pin (w.readAt s.readCalls)],
     millisCalls := s.millisCalls,
     readCalls := s.readCalls + 1 })

/-! ## The driver -/

/-- The display handle: `class LiquidCrystalEAX`, its data members. -/
structure LiquidCrystalEAX where
  m_pinDataSelect : Int
  m_pinClock : Int
  m_pinWriteEnable : Int
  m_pinReadEnable : Int
  m_pinReset : Int
  m_pinData : Fin 8 → Int
  m_clockEnabled : Bool

/-- The `enum Command` of the header, with its enumerator values. -/
inductive Command where
  | CMD_SYS_RESET
  | CMD_CLEAR_DISPLAY
  | CMD_CURSOR_HOME
  | CMD_CURSOR_RETURN
  | CMD_CURSOR_DIR_INC
  | CMD_CURSOR_DIR_DEC
  | CMD_CURSOR_INC
  | CMD_CURSOR_DEC
  | CMD_CURSOR_FONT_UNDERLINE
  | CMD_CURSOR_FONT_BLOCK
  | CMD_CURSOR_UNDERLINE_BLINK_OFF
  | CMD_CURSOR_UNDERLINE_BLINK_ON
  | CMD_DISPLAY_OFF
  | CMD_DISPLAY_ON
  | CMD_CURSOR_OFF
  | CMD_CURSOR_ON
  | CMD_SUPPRESS_ON
  | CMD_SUPPRESS_OFF
  deriving DecidableEq

/-- The enumerator values, as the byte `(byte)cmd`. -/
def Command.toByte : Command → Byte
  | .CMD_SYS_RESET => 0x10
  | .CMD_CLEAR_DISPLAY => 0x01
  | .CMD_CURSOR_HOME => 0x02
  | .CMD_CURSOR_RETURN => 0x03
  | .CMD_CURSOR_DIR_INC => 0x04
  | .CMD_CURSOR_DIR_DEC => 0x05
  | .CMD_CURSOR_INC => 0x06
  | .CMD_CURSOR_DEC => 0x07
  | .CMD_CURSOR_FONT_UNDERLINE => 0x08
  | .CMD_CURSOR_FONT_BLOCK => 0x09
  | .CMD_CURSOR_UNDERLINE_BLINK_OFF => 0x0A
  | .CMD_CURSOR_UNDERLINE_BLINK_ON => 0x0B
  | .CMD_DISPLAY_OFF => 0x0C
  | .CMD_DISPLAY_ON => 0x0D
  | .CMD_CURSOR_OFF => 0x0E
  | .CMD_CURSOR_ON => 0x0F
  | .CMD_SUPPRESS_ON => 0x20
  | .CMD_SUPPRESS_OFF => 0x60

namespace LiquidCrystalEAX

/-- The constructor: pin assignments only, clock flag cleared. -/
def new (pinData0 pinData1 pinData2 pinData3 pinData4 pinData5 pinData6 pinData7
    pinDataSelect pinClock pinWriteEnable pinReadEnable pinReset : Int) : LiquidCrystalEAX :=
  { m_pinDataSelect := pinDataSelect,
    m_pinClock := pinClock,
    m_pinWriteEnable := pinWriteEnable,
    m_pinReadEnable := pinReadEnable,
    m_pinReset := pinReset,
    m_clockEnabled := false,
    m_pinData := ![pinData0, pinData1, pinData2, pinData3, pinData4, pinData5, pinData6,
      pinData7] }

/-- Conversion of an int value to the type byte. -/
def toByte (n : Nat) : Byte := ⟨n % 256, Nat.mod_lt n (by decide)⟩

/-! ### General operations -/

/-- The pin set-up of `init()`: everything before its final call of `displayOn()`. -/
def initPins (self : LiquidCrystalEAX) (s : Hal) : Hal :=
  -- Initialise all pins as outputs.
  let s := pinMode self.m_pinDataSelect .OUTPUT s
  let s := pinMode self.m_pinClock .OUTPUT s
  let s := pinMode self.m_pinWriteEnable .OUTPUT s
  let s := pinMode self.m_pinReadEnable .OUTPUT s
  let s := pinMode self.m_pinReset .OUTPUT s
  let s := (List.finRange 8).foldl (fun st i => pinMode (self.m_pinData i) .OUTPUT st) s
  -- Make sure everything is initialised to necessary defaults.
  let s := digitalWrite self.m_pinDataSelect .LOW s
  let s := digitalWrite self.m_pinClock .LOW s
  let s := digitalWrite self.m_pinWriteEnable .HIGH s
  let s := digitalWrite self.m_pinReadEnable .HIGH s
  let s := digitalWrite self.m_pinReset .HIGH s
  let s := (List.finRange 8).foldl (fun st i => digitalWrite (self.m_pinData i) .LOW st) s
  -- Make sure the display has time to boot up
  delay 50 s

/-- Member function `enableClock()`: returns the updated handle. -/
def enableClock (self : LiquidCrystalEAX) (s : Hal) : LiquidCrystalEAX × Hal :=
  ({ self with m_clockEnabled := true }, tone self.m_pinClock 2000000 s)

/-- Member function `disableClock()`: returns the updated handle. -/
def disableClock (self : LiquidCrystalEAX) (s : Hal) : LiquidCrystalEAX × Hal :=
  ({ self with m_clockEnabled := false },
   digitalWrite self.m_pinClock .LOW (noTone self.m_pinClock s))

/-- The destructor `~LiquidCrystalEAX()`. -/
def destroy (self : LiquidCrystalEAX) (s : Hal) : LiquidCrystalEAX × Hal :=
  if self.m_clockEnabled = true then disableClock self s else (self, s)

/-- Member function `hardReset()`. -/
def hardReset (self : LiquidCrystalEAX) (s : Hal) : Hal :=
  let s := digitalWrite self.m_pinReset .LOW s
  let s := delay 6 s
  let s := digitalWrite self.m_pinReset .HIGH s
  delay 6 s

/-- Member function `validateCharacter(c)`: the comparisons are made on the promoted
char value. -/
def validateCharacter (p : Platform) (c : Byte) : Byte :=
  if charValue p c < 0x20 ∨ charValue p c > 0xDF then 0x20 else c

/-! ### Low level operations -/

/-- Member function `enableBusyRead()`. -/
def enableBusyRead (self : LiquidCrystalEAX) (s : Hal) : Hal :=
  delayMicroseconds 10 (digitalWrite self.m_pinReadEnable .LOW s)

/-- Member function `disableBusyRead()`. -/
def disableBusyRead (self : LiquidCrystalEAX) (s : Hal) : Hal :=
  delayMicroseconds 10 (digitalWrite self.m_pinReadEnable .HIGH s)

/-- Member function `enableInstructionData()`. -/
def enableInstructionData (self : LiquidCrystalEAX) (s : Hal) : Hal :=
  delayMicroseconds 10 (digitalWrite self.m_pinDataSelect .LOW s)

/-- Member function `enableCharacterData()`. -/
def enableCharacterData (self : LiquidCrystalEAX) (s : Hal) : Hal :=
  delayMicroseconds 10 (digitalWrite self.m_pinDataSelect .HIGH s)

/-- The level `(((data >> i) & 1) == 0) ? LOW : HIGH`. -/
def bitLevel (data : Byte) (i : Fin 8) : Level :=
  if (data.val >>> i.val) &&& 1 = 0 then .LOW else .HIGH

/-- Member function `setData(data)`. -/
def setData (self : LiquidCrystalEAX) (data : Byte) (s : Hal) : Hal :=
  delayMicroseconds 10
    ((List.finRange 8).foldl (fun st i => digitalWrite (self.m_pinData i) (bitLevel data i) st) s)

/-- Member function `clearData()`. -/
def clearData (self : LiquidCrystalEAX) (s : Hal) : Hal :=
  delayMicroseconds 10
    ((List.finRange 8).foldl (fun st i => digitalWrite (self.m_pinData i) .LOW st) s)

/-- The loop of `waitUntilNotBusy`:
`while (busyState == HIGH && (millis() < start) < timeout) { ... }`.
The comparison `millis() < start` yields 0 or 1, and that number is compared with
the timeout. One unit of fuel is used per evaluation of the loop condition. -/
def waitLoop (w : World) (self : LiquidCrystalEAX) (start timeout : Nat) :
    Nat → Level → Hal → Outcome Level
  | 0, _, s => .hung s
  | fuel + 1, busyState, s =>
    if busyState = .HIGH then
      if (if (millis w s).1 < start then 1 else 0) < timeout then
        let s1 := enableBusyRead self (millis w s).2
        let r := digitalRead w (self.m_pinData 7) s1
        waitLoop w self start timeout fuel r.1 (disableBusyRead self r.2)
      else .done busyState (millis w s).2
    else .done busyState s

/-- Member function `waitUntilNotBusy(timeout)`. -/
def waitUntilNotBusy (fuel : Nat) (w : World) (self : LiquidCrystalEAX) (timeout : Nat)
    (s : Hal) : Outcome Bool :=
  -- Log the start time so we know when the timeout expires
  let start := millis w s
  -- The last data pin on the display also acts as a busy flag output
  let s1 := pinMode (self.m_pinData 7) .INPUT_PULLUP start.2
  let s2 := enableInstructionData self s1
  -- Keep going until the busy flag is clear or the timeout expires
  (waitLoop w self start.1 timeout fuel .HIGH s2).bind (fun busyState s3 =>
    -- Revert to normal behaviour
    let s4 := pinMode (self.m_pinData 7) .OUTPUT s3
    let s5 := digitalWrite (self.m_pinData 7) .LOW s4
    .done (decide (busyState = .LOW)) s5)

/-- Member function `doWrite()`: the strobe, then the busy-poll with the default
timeout of 100 ms, whose result is not used. -/
def doWrite (fuel : Nat) (w : World) (self : LiquidCrystalEAX) (s : Hal) : Outcome Unit :=
  let s := digitalWrite self.m_pinWriteEnable .LOW s
  let s := delayMicroseconds 10 s
  let s := digitalWrite self.m_pinWriteEnable .HIGH s
  let s := delayMicroseconds 10 s
  (waitUntilNotBusy fuel w self 100 s).bind (fun _ s1 => .done () s1)

/-- Member function `sendInstruction(cmd)`. -/
def sendInstruction (fuel : Nat) (w : World) (self : LiquidCrystalEAX) (cmd : Command)
    (s : Hal) : Outcome Unit :=
  doWrite fuel w self (setData self cmd.toByte (enableInstructionData self s))

/-- Member function `sendRawInstruction(cmd)`. -/
def sendRawInstruction (fuel : Nat) (w : World) (self : LiquidCrystalEAX) (cmd : Byte)
    (s : Hal) : Outcome Unit :=
  doWrite fuel w self (setData self cmd (enableInstructionData self s))

/-! ### Control -/

/-- Member function `setCursorPos(ch, line)`: the int expression is converted to
byte at the call of `setData`. -/
def setCursorPos (fuel : Nat) (w : World) (self : LiquidCrystalEAX) (ch line : Byte)
    (s : Hal) : Outcome Unit :=
  doWrite fuel w self
    (setData self (toByte ((ch.val &&& 0x3F) ||| ((line.val &&& 1) <<< 6) ||| (1 <<< 7)))
      (enableInstructionData self s))

def softReset (fuel : Nat) (w : World) (self : LiquidCrystalEAX) (s : Hal) : Outcome Unit :=
  sendInstruction fuel w self .CMD_SYS_RESET s

def clearDisplay (fuel : Nat) (w : World) (self : LiquidCrystalEAX) (s : Hal) : Outcome Unit :=
  sendInstruction fuel w self .CMD_CLEAR_DISPLAY s

def moveCursorHome (fuel : Nat) (w : World) (self : LiquidCrystalEAX) (s : Hal) :
    Outcome Unit :=
  sendInstruction fuel w self .CMD_CURSOR_HOME s

def returnCursor (fuel : Nat) (w : World) (self : LiquidCrystalEAX) (s : Hal) : Outcome Unit :=
  sendInstruction fuel w self .CMD_CURSOR_RETURN s

def setCursorDir (fuel : Nat) (w : World) (self : LiquidCrystalEAX) (increment : Bool)
    (s : Hal) : Outcome Unit :=
  sendInstruction fuel w self (if increment then .CMD_CURSOR_DIR_INC else .CMD_CURSOR_DIR_DEC) s

/-- The loop `for (int i = 0; i < dist; ++i) sendInstruction(cmd);` of `moveCursor`,
from the counter value i on. Since i < dist when it is incremented, `++i` does not
overflow. -/
def moveCursorLoop (fuel : Nat) (w : World) (self : LiquidCrystalEAX) (cmd : Command)
    (dist : Int) (i : Int) (s : Hal) : Outcome Unit :=
  if i < dist then
    (sendInstruction fuel w self cmd s).bind
      (fun _ s1 => moveCursorLoop fuel w self cmd dist (i + 1) s1)
  else .done () s
termination_by (dist - i).toNat
decreasing_by omega

/-- Member function `moveCursor(dist)`: `dist *= -1` is computed in the type int. -/
def moveCursor (p : Platform) (fuel : Nat) (w : World) (self : LiquidCrystalEAX) (dist : Int)
    (s : Hal) : Outcome Unit :=
  let cmd := if dist > 0 then Command.CMD_CURSOR_INC else Command.CMD_CURSOR_DEC
  let dist1 := if dist < 0 then wrapInt p (dist * -1) else dist
  moveCursorLoop fuel w self cmd dist1 0 s

def useBlockCursor (fuel : Nat) (w : World) (self : LiquidCrystalEAX) (s : Hal) :
    Outcome Unit :=
  sendInstruction fuel w self .CMD_CURSOR_FONT_BLOCK s

def useUnderlineCursor (fuel : Nat) (w : World) (self : LiquidCrystalEAX) (blinking : Bool)
    (s : Hal) : Outcome Unit :=
  (sendInstruction fuel w self .CMD_CURSOR_FONT_UNDERLINE s).bind (fun _ s1 =>
    sendInstruction fuel w self
      (if blinking then .CMD_CURSOR_UNDERLINE_BLINK_ON else .CMD_CURSOR_UNDERLINE_BLINK_OFF) s1)

def showCursor (fuel : Nat) (w : World) (self : LiquidCrystalEAX) (s : Hal) : Outcome Unit :=
  sendInstruction fuel w self .CMD_CURSOR_ON s

def hideCursor (fuel : Nat) (w : World) (self : LiquidCrystalEAX) (s : Hal) : Outcome Unit :=
  sendInstruction fuel w self .CMD_CURSOR_OFF s

def displayOn (fuel : Nat) (w : World) (self : LiquidCrystalEAX) (s : Hal) : Outcome Unit :=
  sendInstruction fuel w self .CMD_DISPLAY_ON s

def displayOff (fuel : Nat) (w : World) (self : LiquidCrystalEAX) (s : Hal) : Outcome Unit :=
  sendInstruction fuel w self .CMD_DISPLAY_OFF s

def suppressDisplay (fuel : Nat) (w : World) (self : LiquidCrystalEAX) (suppress : Bool)
    (s : Hal) : Outcome Unit :=
  sendInstruction fuel w self (if suppress then .CMD_SUPPRESS_ON else .CMD_SUPPRESS_OFF) s

/-- Member function `init()`: pin set-up, then `displayOn()`. -/
def init (fuel : Nat) (w : World) (self : LiquidCrystalEAX) (s : Hal) : Outcome Unit :=
  displayOn fuel w self (initPins self s)

/-! ### Output -/

/-- Member function `write(char c)`. -/
def write (p : Platform) (fuel : Nat) (w : World) (self : LiquidCrystalEAX) (c : Byte)
    (s : Hal) : Outcome Unit :=
  (doWrite fuel w self (setData self (validateCharacter p c) (enableCharacterData self s))).bind
    (fun _ s1 => .done () (delayMicroseconds 10 s1))

/-- The loop of `write(const char *str, byte length)`, from the counter value i on:
`for (byte i = 0; i < length; ++i) { if (str[i] == 0) break; write(str[i]); }`.
The buffer is the memory the pointer designates: `str k` is the char at offset k.
The counter is a byte, `++i` is reduced modulo 256. -/
def writeLoop (p : Platform) (fuel : Nat) (w : World) (self : LiquidCrystalEAX)
    (str : Nat → Byte) (length : Byte) (i : Byte) (s : Hal) : Outcome Unit :=
  if i.val < length.val then
    if str i.val = 0 then .done () s
    else
      (write p fuel w self (str i.val) s).bind
        (fun _ s1 => writeLoop p fuel w self str length (toByte (i.val + 1)) s1)
  else .done () s
termination_by length.val - i.val
decreasing_by
  simp only [toByte]
  omega

/-- Member function `write(const char *str, byte length)`. -/
def write_str (p : Platform) (fuel : Nat) (w : World) (self : LiquidCrystalEAX)
    (str : Nat → Byte) (length : Byte) (s : Hal) : Outcome Unit :=
  writeLoop p fuel w self str length 0 s

/-- The loop of `write(const String &str)`, from the counter value i on:
`for (int i = 0; i < len; ++i) write(str[i]);`. The string object is the list of
its chars; `str[i]` is the i-th of them (0 beyond the end, as the String class
answers). -/
def writeStringLoop (p : Platform) (fuel : Nat) (w : World) (self : LiquidCrystalEAX)
    (str : List Byte) (len : Int) (i : Int) (s : Hal) : Outcome Unit :=
  if i < len then
    (write p fuel w self (str.getD i.toNat 0) s).bind
      (fun _ s1 => writeStringLoop p fuel w self str len (i + 1) s1)
  else .done () s
termination_by (len - i).toNat
decreasing_by omega

/-- Member function `write(const String &str)`: `const int len = str.length();`
converts the unsigned length to int. -/
def write_String (p : Platform) (fuel : Nat) (w : World) (self : LiquidCrystalEAX)
    (str : List Byte) (s : Hal) : Outcome Unit :=
  writeStringLoop p fuel w self str (wrapInt p str.length) 0 s

end LiquidCrystalEAX

/-! ## Sequences of public calls on one handle -/

/-- A call of a public member function, with its arguments. -/
inductive Call where
  | init
  | enableClock
  | disableClock
  | hardReset
  | setCursorPos (ch line : Byte)
  | softReset
  | clearDisplay
  | moveCursorHome
  | returnCursor
  | setCursorDir (increment : Bool)
  | moveCursor (dist : Int)
  | useBlockCursor
  | useUnderlineCursor (blinking : Bool)
  | showCursor
  | hideCursor
  | displayOn
  | displayOff
  | suppressDisplay (suppress : Bool)
  | write (c : Byte)
  | write_str (str : Nat → Byte) (length : Byte)
  | write_String (str : List Byte)

/-- Lift code that leaves the handle unchanged. -/
def keep (self : LiquidCrystalEAX) (o : Outcome Unit) : Outcome LiquidCrystalEAX :=
  o.bind (fun _ s => .done self s)

/-- Run one public call on the handle. -/
def Call.run (p : Platform) (fuel : Nat) (w : World) (c : Call) (self : LiquidCrystalEAX)
    (s : Hal) : Outcome LiquidCrystalEAX :=
  match c with
  | .init => keep self (self.init fuel w s)
  | .enableClock => .done (self.enableClock s).1 (self.enableClock s).2
  | .disableClock => .done (self.disableClock s).1 (self.disableClock s).2
  | .hardReset => .done self (self.hardReset s)
  | .setCursorPos ch line => keep self (self.setCursorPos fuel w ch line s)
  | .softReset => keep self (self.softReset fuel w s)
  | .clearDisplay => keep self (self.clearDisplay fuel w s)
  | .moveCursorHome => keep self (self.moveCursorHome fuel w s)
  | .returnCursor => keep self (self.returnCursor fuel w s)
  | .setCursorDir increment => keep self (self.setCursorDir fuel w increment s)
  | .moveCursor dist => keep self (self.moveCursor p fuel w dist s)
  | .useBlockCursor => keep self (self.useBlockCursor fuel w s)
  | .useUnderlineCursor blinking => keep self (self.useUnderlineCursor fuel w blinking s)
  | .showCursor => keep self (self.showCursor fuel w s)
  | .hideCursor => keep self (self.hideCursor fuel w s)
  | .displayOn => keep self (self.displayOn fuel w s)
  | .displayOff => keep self (self.displayOff fuel w s)
  | .suppressDisplay suppress => keep self (self.suppressDisplay fuel w suppress s)
  | .write c => keep self (self.write p fuel w c s)
  | .write_str str length => keep self (self.write_str p fuel w str length s)
  | .write_String str => keep self (self.write_String p fuel w str s)

/-- Run a sequence of public calls, one after the other. -/
def runCalls (p : Platform) (fuel : Nat) (w : World) :
    List Call → LiquidCrystalEAX → Hal → Outcome LiquidCrystalEAX
  | [], self, s => .done self s
  | c :: cs, self, s => (c.run p fuel w self s).bind (fun self1 s1 => runCalls p fuel w cs self1 s1)

/-- Whether the clock flag is set after a sequence of calls: the last call among
`enableClock()` and `disableClock()` decides, and without one the flag keeps its
initial value. -/
def clockFlagAfter : List Call → Bool → Bool
  | [], flag => flag
  | .enableClock :: cs, _ => clockFlagAfter cs true
  | .disableClock :: cs, _ => clockFlagAfter cs false
  | _ :: cs, flag => clockFlagAfter cs flag

/-- Whether a sequence of calls contains a call of `enableClock()`. -/
def callsEnableClock : List Call → Bool
  | [] => false
  | .enableClock :: _ => true
  | _ :: cs => callsEnableClock cs

/-! ## Observing the bus

The controller side of the trace: the level last driven on every pin, and the
transfers latched. A transfer is latched by each call that asserts write-enable
(drives it low); it consists of the level of the data-select line and of the byte
on the eight data lines at that moment. -/

/-- The pins as the controller sees them. -/
structure Bus where
  /-- Level last driven on each pin. -/
  level : Int → Level
  /-- The transfers latched so far: data-select level and byte. -/
  transfers : List (Level × Nat)

/-- The byte on the data lines: the sum over i of level(D_i) * 2^i. -/
def busByte (self : LiquidCrystalEAX) (level : Int → Level) : Nat :=
  ((List.finRange 8).map
    (fun i => if level (self.m_pinData i) = Level.HIGH then 2 ^ i.val else 0)).sum

/-- Effect of one call on the bus. -/
def busStep (self : LiquidCrystalEAX) (b : Bus) : Event → Bus
  | .digitalWrite pin val =>
    { level := Function.update b.level pin val,
      transfers :=
        if pin = self.m_pinWriteEnable ∧ val = Level.LOW then
          b.transfers ++ [((Function.update b.level pin val) self.m_pinDataSelect,
            busByte self (Function.update b.level pin val))]
        else b.transfers }
  | _ => b

/-- Effect of a trace on the bus. -/
def busRun (self : LiquidCrystalEAX) (b : Bus) (tr : List Event) : Bus :=
  tr.foldl (busStep self) b

/-- The 13 pin identifiers of a handle, D0..D7 first. -/
def LiquidCrystalEAX.pins (self : LiquidCrystalEAX) : List Int :=
  (List.finRange 8).map self.m_pinData ++
    [self.m_pinDataSelect, self.m_pinClock, self.m_pinWriteEnable, self.m_pinReadEnable,
     self.m_pinReset]

/-- The 13 pin identifiers are pairwise distinct. -/
def LiquidCrystalEAX.pinsDistinct (self : LiquidCrystalEAX) : Prop :=
  self.pins.Nodup

instance (self : LiquidCrystalEAX) : Decidable self.pinsDistinct :=
  inferInstanceAs (Decidable self.pins.Nodup)

/-- The busy flag always reads low again: after every sample there is a later one
(or that one) that reads low. -/
def World.eventuallyReady (w : World) : Prop :=
  ∀ k, ∃ j, k ≤ j ∧ w.readAt j = Level.LOW

/-- The handle of the end-to-end scenario: pins 2..14. -/
def demoHandle : LiquidCrystalEAX :=
  LiquidCrystalEAX.new 2 3 4 5 6 7 8 9 10 11 12 13 14

/-- A controller that is never busy and a clock that advances 1 ms per reading. -/
def readyWorld : World := ⟨fun k => k, fun _ => Level.LOW⟩

/-- A controller whose busy flag reads high forever, with the same clock. -/
def stuckWorld : World := ⟨fun k => k, fun _ => Level.HIGH⟩

/-- The initial state: nothing called yet. -/
def Hal.start : Hal := ⟨[], 0, 0⟩

/-- The value code returned, if it returned. -/
def Outcome.result {α : Type} : Outcome α → Option α
  | .done a _ => some a
  | .hung _ => none

/-- The level that stands for a bit: high for 1, low for 0. -/
def Level.ofBit (bit : Bool) : Level :=
  if bit then .HIGH else .LOW

/-- Code transmits exactly the transfers xs: in every outcome, returned or still
inside its busy-poll, the transfers latched are the earlier ones followed by xs. -/
def transmits (self : LiquidCrystalEAX) (op : Hal → Outcome Unit) (xs : List (Level × Nat)) :
    Prop :=
  ∀ (s : Hal) (b : Bus),
    (busRun self b (op s).state.trace).transfers = (busRun self b s.trace).transfers ++ xs

/-- A controller that stays busy for five samples and reads ready from the sixth
on, with a clock that advances 1 ms per reading. -/
def lateWorld : World := ⟨fun k => k, fun k => if k < 5 then Level.HIGH else Level.LOW⟩

/-- Search for a null byte from the offset i on, over at most n bytes: the offset
of the first one found, and i + n when there is none. -/
def nullSearch (str : Nat → Byte) : Nat → Nat → Nat
  | 0, i => i
  | n + 1, i => if str i = 0 then i else nullSearch str n (i + 1)

/-- The offset of the first null byte among the first `bound` bytes of a buffer,
and `bound` when none of them is null. -/
def firstNull (str : Nat → Byte) (bound : Nat) : Nat :=
  nullSearch str bound 0

/-- The characters of a list written one after the other, each with `write(char)`. -/
def writeChars (p : Platform) (fuel : Nat) (w : World) (self : LiquidCrystalEAX) :
    List Byte → Hal → Outcome Unit
  | [], s => .done () s
  | c :: cs, s => (self.write p fuel w c s).bind (fun _ s1 => writeChars p fuel w self cs s1)

/-- The buffer "AB\0CD" (and null bytes after it). -/
def demoBuffer : Nat → Byte :=
  fun i => [0x41, 0x42, 0, 0x43, 0x44].getD i 0

/-- Effect of one call on the level last driven on the pin q. -/
def levelStep (q : Int) (acc : Option Level) : Event → Option Level
  | .digitalWrite pin val => if pin = q then some val else acc
  | _ => acc

/-- The level last driven on the pin q by the calls of a trace, if it was driven. -/
def lastLevel (q : Int) (tr : List Event) : Option Level :=
  tr.foldl (levelStep q) none

/-- Effect of one call on the configuration of the pin q. -/
def modeStep (q : Int) (acc : Option PinMode) : Event → Option PinMode
  | .pinMode pin mode => if pin = q then some mode else acc
  | _ => acc

/-- The mode the pin q was last configured to by the calls of a trace, if it was
configured. -/
def lastMode (q : Int) (tr : List Event) : Option PinMode :=
  tr.foldl (modeStep q) none

/-- The string object of three chars: the letter A, a null byte, the letter B. -/
def demoString : List Byte := [0x41, 0, 0x42]

/-- The calls of the pin set-up of `init()`: the five control pins and D0..D7
configured as outputs; data-select and clock low, write-enable, read-enable and
reset high; D0..D7 low; 50 ms of delay. -/
def initEvents (self : LiquidCrystalEAX) : List Event :=
  [.pinMode self.m_pinDataSelect .OUTPUT,
   .pinMode self.m_pinClock .OUTPUT,
   .pinMode self.m_pinWriteEnable .OUTPUT,
   .pinMode self.m_pinReadEnable .OUTPUT,
   .pinMode self.m_pinReset .OUTPUT,
   .pinMode (self.m_pinData 0) .OUTPUT,
   .pinMode (self.m_pinData 1) .OUTPUT,
   .pinMode (self.m_pinData 2) .OUTPUT,
   .pinMode (self.m_pinData 3) .OUTPUT,
   .pinMode (self.m_pinData 4) .OUTPUT,
   .pinMode (self.m_pinData 5) .OUTPUT,
   .pinMode (self.m_pinData 6) .OUTPUT,
   .pinMode (self.m_pinData 7) .OUTPUT,
   .digitalWrite self.m_pinDataSelect .LOW,
   .digitalWrite self.m_pinClock .LOW,
   .digitalWrite self.m_pinWriteEnable .HIGH,
   .digitalWrite self.m_pinReadEnable .HIGH,
   .digitalWrite self.m_pinReset .HIGH,
   .digitalWrite (self.m_pinData 0) .LOW,
   .digitalWrite (self.m_pinData 1) .LOW,
   .digitalWrite (self.m_pinData 2) .LOW,
   .digitalWrite (self.m_pinData 3) .LOW,
   .digitalWrite (self.m_pinData 4) .LOW,
   .digitalWrite (self.m_pinData 5) .LOW,
   .digitalWrite (self.m_pinData 6) .LOW,
   .digitalWrite (self.m_pinData 7) .LOW,
   .delay 50]

/-- The state of the lines a busy-poll leaves behind: data-select last driven
low, D7 last configured as an output and last driven low. -/
def idle (self : LiquidCrystalEAX) (tr : List Event) : Prop :=
  lastLevel self.m_pinDataSelect tr = some Level.LOW ∧
    lastLevel (self.m_pinData 7) tr = some Level.LOW ∧
    lastMode (self.m_pinData 7) tr = some PinMode.OUTPUT

/-- Calls that neither drive data-select or D7 nor configure D7. -/
def untouched (self : LiquidCrystalEAX) : Event → Prop
  | .digitalWrite pin _ => pin ≠ self.m_pinDataSelect ∧ pin ≠ self.m_pinData 7
  | .pinMode pin _ => pin ≠ self.m_pinData 7
  | _ => True

/-- Code strobes printable character data only: in every outcome, returned or
still inside a busy-poll, every transfer it has added was latched in character
mode and its byte lies in [0x20, 0xDF]. -/
def strobesPrintableOnly (self : LiquidCrystalEAX) (op : Hal → Outcome Unit) : Prop :=
  ∀ (s : Hal) (b : Bus), ∃ new : List (Level × Nat),
    (busRun self b (op s).state.trace).transfers = (busRun self b s.trace).transfers ++ new ∧
      ∀ x ∈ new, x.1 = Level.HIGH ∧ 0x20 ≤ x.2 ∧ x.2 ≤ 0xDF

/-- Whether a call drives a line of the bus towards the controller: a
`digitalWrite` on any pin but read-enable. -/
def isBusWrite (self : LiquidCrystalEAX) : Event → Bool
  | .digitalWrite pin _ => decide (pin ≠ self.m_pinReadEnable)
  | _ => false

/-- The writes of a trace to the lines of the bus (all but read-enable), in order. -/
def busWrites (self : LiquidCrystalEAX) (tr : List Event) : List Event :=
  tr.filter (isBusWrite self)

/-- Calls that do not drive write-enable. -/
def quiet (self : LiquidCrystalEAX) : Event → Prop
  | .digitalWrite pin _ => pin ≠ self.m_pinWriteEnable
  | _ => True

/-- The calls a busy-poll can make: clock readings, the settle delay, samples of
D7, writes to read-enable, the mode changes of D7, and the writes of low to
data-select and to D7. -/
def pollEvent (self : LiquidCrystalEAX) : Event → Prop
  | .millis _ => True
  | .delayMicroseconds us => us = 10
  | .digitalRead pin _ => pin = self.m_pinData 7
  | .pinMode pin _ => pin = self.m_pinData 7
  | .digitalWrite pin val =>
    pin = self.m_pinReadEnable ∨
      (val = Level.LOW ∧ (pin = self.m_pinDataSelect ∨ pin = self.m_pinData 7))
  | _ => False

/-- The calls of one transfer of a byte: select the mode on the data-select line
and settle 10 us, drive D0..D7 to bits 0..7 of the byte and settle 10 us, strobe
write-enable (low, 10 us, high, 10 us). -/
def transferEvents (self : LiquidCrystalEAX) (mode : Level) (data : Byte) : List Event :=
  [.digitalWrite self.m_pinDataSelect mode, .delayMicroseconds 10] ++
    (List.finRange 8).map (fun i => Event.digitalWrite (self.m_pinData i)
      (LiquidCrystalEAX.bitLevel data i)) ++
    [.delayMicroseconds 10,
     .digitalWrite self.m_pinWriteEnable .LOW, .delayMicroseconds 10,
     .digitalWrite self.m_pinWriteEnable .HIGH, .delayMicroseconds 10]

/-- One busy-poll with the default timeout of 100 ms, its result not used. -/
def poll (fuel : Nat) (w : World) (self : LiquidCrystalEAX) (s : Hal) : Outcome Unit :=
  (self.waitUntilNotBusy fuel w 100 s).bind (fun _ s1 => .done () s1)

/-! ## Basic facts about traces -/

namespace LiquidCrystalEAX

theorem finRange_eight : List.finRange 8 = [0, 1, 2, 3, 4, 5, 6, 7] := by
  decide

theorem emits_emits (s : Hal) (a b : List Event) : (s.emits a).emits b = s.emits (a ++ b) := by
  simp [Hal.emits]

theorem emit_eq_emits (s : Hal) (e : Event) : s.emit e = s.emits [e] := rfl

theorem emits_nil (s : Hal) : s.emits [] = s := by
  simp [Hal.emits]

theorem foldl_digitalWrite {α : Type} (f : α → Int) (g : α → Level) (l : List α) (s : Hal) :
    l.foldl (fun st i => digitalWrite (f i) (g i) st) s =
      s.emits (l.map (fun i => Event.digitalWrite (f i) (g i))) := by
  induction l generalizing s with
  | nil => simp [emits_nil]
  | cons a l ih =>
    rw [List.foldl_cons, ih]
    simp [digitalWrite, emit_eq_emits, emits_emits]

theorem foldl_pinMode {α : Type} (f : α → Int) (m : PinMode) (l : List α) (s : Hal) :
    l.foldl (fun st i => pinMode (f i) m st) s =
      s.emits (l.map (fun i => Event.pinMode (f i) m)) := by
  induction l generalizing s with
  | nil => simp [emits_nil]
  | cons a l ih =>
    rw [List.foldl_cons, ih]
    simp [pinMode, emit_eq_emits, emits_emits]

theorem setData_eq (self : LiquidCrystalEAX) (data : Byte) (s : Hal) :
    self.setData data s =
      s.emits ((List.finRange 8).map (fun i => Event.digitalWrite (self.m_pinData i)
        (bitLevel data i)) ++ [.delayMicroseconds 10]) := by
  simp [setData, foldl_digitalWrite, delayMicroseconds, emit_eq_emits, emits_emits]

/-- A transfer in either mode: mode select, data, strobe, then the busy-poll. -/
theorem doWrite_setData (fuel : Nat) (w : World) (self : LiquidCrystalEAX) (mode : Level)
    (data : Byte) (s : Hal) :
    self.doWrite fuel w (self.setData data
        (delayMicroseconds 10 (digitalWrite self.m_pinDataSelect mode s))) =
      poll fuel w self (s.emits (transferEvents self mode data)) := by
  simp [doWrite, setData_eq, poll, transferEvents, delayMicroseconds, digitalWrite,
    emit_eq_emits, emits_emits]

theorem sendInstruction_eq (fuel : Nat) (w : World) (self : LiquidCrystalEAX) (cmd : Command)
    (s : Hal) :
    self.sendInstruction fuel w cmd s =
      poll fuel w self (s.emits (transferEvents self .LOW cmd.toByte)) := by
  simp [sendInstruction, enableInstructionData, doWrite_setData]

/-! ## Facts about the bus -/

theorem busRun_append (self : LiquidCrystalEAX) (b : Bus) (a c : List Event) :
    busRun self b (a ++ c) = busRun self (busRun self b a) c := by
  simp [busRun, List.foldl_append]

theorem busStep_quiet (self : LiquidCrystalEAX) (b : Bus) (e : Event) (h : quiet self e) :
    (busStep self b e).transfers = b.transfers := by
  cases e <;> simp_all [busStep, quiet]

theorem busRun_quiet (self : LiquidCrystalEAX) (evs : List Event)
    (h : ∀ e ∈ evs, quiet self e) (b : Bus) :
    (busRun self b evs).transfers = b.transfers := by
  induction evs generalizing b with
  | nil => rfl
  | cons e evs ih =>
    have h1 : quiet self e := h e (List.mem_cons_self e evs)
    have h2 : ∀ x ∈ evs, quiet self x := fun x hx => h x (List.mem_cons_of_mem e hx)
    show (busRun self (busStep self b e) evs).transfers = b.transfers
    rw [ih h2, busStep_quiet self b e h1]

/-! ### What pairwise distinct pins give -/

theorem data_inj (self : LiquidCrystalEAX) (hd : self.pinsDistinct) (i j : Fin 8)
    (h : self.m_pinData i = self.m_pinData j) : i = j :=
  List.inj_on_of_nodup_map (List.nodup_append.1 hd).1 (List.mem_finRange i)
    (List.mem_finRange j) h

theorem data_not_control (self : LiquidCrystalEAX) (hd : self.pinsDistinct) (i : Fin 8) :
    self.m_pinData i ≠ self.m_pinDataSelect ∧ self.m_pinData i ≠ self.m_pinClock ∧
      self.m_pinData i ≠ self.m_pinWriteEnable ∧ self.m_pinData i ≠ self.m_pinReadEnable ∧
      self.m_pinData i ≠ self.m_pinReset := by
  have hdis := (List.nodup_append.1 hd).2.2
  have hmem : self.m_pinData i ∈ (List.finRange 8).map self.m_pinData :=
    List.mem_map_of_mem _ (List.mem_finRange i)
  refine ⟨?_, ?_, ?_, ?_, ?_⟩ <;> intro h <;> exact hdis hmem (by simp [h])

theorem control_distinct (self : LiquidCrystalEAX) (hd : self.pinsDistinct) :
    self.m_pinDataSelect ≠ self.m_pinWriteEnable ∧
      self.m_pinReadEnable ≠ self.m_pinWriteEnable ∧
      self.m_pinDataSelect ≠ self.m_pinReadEnable ∧
      self.m_pinClock ≠ self.m_pinWriteEnable ∧
      self.m_pinClock ≠ self.m_pinDataSelect := by
  have h := (List.nodup_append.1 hd).2.1
  simp only [List.nodup_cons, List.mem_cons, List.mem_singleton, not_or] at h
  obtain ⟨⟨h1, h2, h3, h4⟩, ⟨h5, h6, h7⟩, ⟨h8, h9⟩, h10, -⟩ := h
  exact ⟨h2, fun h => h8 h.symm, h3, h5, fun h => h1 h.symm⟩

/-! ### Levels and transfers -/

theorem busRun_nil (self : LiquidCrystalEAX) (b : Bus) : busRun self b [] = b := rfl

theorem busRun_cons (self : LiquidCrystalEAX) (b : Bus) (e : Event) (evs : List Event) :
    busRun self b (e :: evs) = busRun self (busStep self b e) evs := rfl

/-- A pin keeps its level over calls that do not write to it. -/
theorem busRun_level_keep (self : LiquidCrystalEAX) (q : Int) (evs : List Event)
    (h : ∀ v, Event.digitalWrite q v ∉ evs) (b : Bus) :
    (busRun self b evs).level q = b.level q := by
  induction evs generalizing b with
  | nil => rfl
  | cons e evs ih =>
    have h2 : ∀ v, Event.digitalWrite q v ∉ evs :=
      fun v hv => h v (List.mem_cons_of_mem e hv)
    rw [busRun_cons, ih h2]
    cases e with
    | digitalWrite pin val =>
      have hne : q ≠ pin := by
        intro hq
        exact h val (by simp [hq])
      simp [busStep, Function.update_apply, hne]
    | _ => rfl

/-- Levels of the data lines after a run of writes to data lines. -/
theorem busRun_level_data (self : LiquidCrystalEAX) (hd : self.pinsDistinct)
    (f : Fin 8 → Level) (l : List (Fin 8)) (j : Fin 8) (b : Bus) :
    (busRun self b (l.map (fun i => Event.digitalWrite (self.m_pinData i) (f i)))).level
        (self.m_pinData j) =
      if j ∈ l then f j else b.level (self.m_pinData j) := by
  induction l generalizing b with
  | nil => simp [busRun_nil]
  | cons a l ih =>
    rw [List.map_cons, busRun_cons, ih]
    by_cases hj : j ∈ l
    · simp [hj]
    · by_cases hja : j = a
      · subst hja
        simp [hj, busStep]
      · have hne : self.m_pinData j ≠ self.m_pinData a :=
          fun h => hja (data_inj self hd j a h)
        simp [hj, hja, busStep, Function.update_apply, hne]

theorem busByte_congr (self : LiquidCrystalEAX) (lv lv1 : Int → Level)
    (h : ∀ i, lv (self.m_pinData i) = lv1 (self.m_pinData i)) :
    busByte self lv = busByte self lv1 := by
  simp [busByte, h]

set_option maxRecDepth 100000 in
/-- Reading the eight levels of a byte back gives the byte. -/
theorem sum_bitLevel : ∀ data : Byte,
    ((List.finRange 8).map
      (fun i => if bitLevel data i = Level.HIGH then 2 ^ i.val else 0)).sum = data.val := by
  decide

theorem busByte_bitLevel (self : LiquidCrystalEAX) (data : Byte) (lv : Int → Level)
    (h : ∀ i, lv (self.m_pinData i) = bitLevel data i) : busByte self lv = data.val := by
  rw [← sum_bitLevel data]
  simp [busByte, h]

/-- One transfer latches exactly one byte, in the mode selected. -/
theorem busRun_transferEvents (self : LiquidCrystalEAX) (hd : self.pinsDistinct) (mode : Level)
    (data : Byte) (b : Bus) :
    (busRun self b (transferEvents self mode data)).transfers =
      b.transfers ++ [(mode, data.val)] := by
  obtain ⟨hsw, -, -, -, -⟩ := control_distinct self hd
  have hdc := data_not_control self hd
  simp only [transferEvents, busRun_append]
  generalize hb1 : busRun self b
    [Event.digitalWrite self.m_pinDataSelect mode, Event.delayMicroseconds 10] = b1
  generalize hb2 : busRun self b1 ((List.finRange 8).map
    (fun i => Event.digitalWrite (self.m_pinData i) (bitLevel data i))) = b2
  have ht1 : b1.transfers = b.transfers := by
    rw [← hb1]
    simp [busRun_cons, busRun_nil, busStep, hsw]
  have hl1 : b1.level self.m_pinDataSelect = mode := by
    rw [← hb1]
    simp [busRun_cons, busRun_nil, busStep]
  have ht2 : b2.transfers = b1.transfers := by
    rw [← hb2]
    apply busRun_quiet
    intro e he
    obtain ⟨i, -, rfl⟩ := List.mem_map.1 he
    exact (hdc i).2.2.1
  have hl2 : b2.level self.m_pinDataSelect = mode := by
    rw [← hb2, busRun_level_keep, hl1]
    intro v hv
    obtain ⟨i, -, hi⟩ := List.mem_map.1 hv
    injection hi with hi1 hi2
    exact (hdc i).1 hi1
  have hl3 : ∀ i, b2.level (self.m_pinData i) = bitLevel data i := by
    intro i
    rw [← hb2, busRun_level_data self hd]
    simp [List.mem_finRange]
  have hbyte : busByte self (Function.update b2.level self.m_pinWriteEnable Level.LOW) =
      data.val := by
    apply busByte_bitLevel
    intro i
    rw [Function.update_apply, if_neg (hdc i).2.2.1, hl3]
  simp [busRun_cons, busRun_nil, busStep, hbyte, Function.update_apply, hsw, hl2, ht2, ht1]

/-! ## The busy-poll -/

theorem bind_state_done {α β : Type} (o : Outcome α) (f : α → Hal → Hal) (g : α → β) :
    (o.bind (fun a s => Outcome.done (g a) (f a s))).state =
      match o with
      | .done a s => f a s
      | .hung s => s := by
  cases o <;> rfl

theorem waitLoop_succ (w : World) (self : LiquidCrystalEAX) (start timeout fuel : Nat)
    (busyState : Level) (s : Hal) :
    waitLoop w self start timeout (fuel + 1) busyState s =
      if busyState = Level.HIGH then
        if (if (millis w s).1 < start then 1 else 0) < timeout then
          waitLoop w self start timeout fuel
            (digitalRead w (self.m_pinData 7) (enableBusyRead self (millis w s).2)).1
            (disableBusyRead self
              (digitalRead w (self.m_pinData 7) (enableBusyRead self (millis w s).2)).2)
        else Outcome.done busyState (millis w s).2
      else Outcome.done busyState s := rfl

/-- The calls the loop of the busy-poll adds to the trace. -/
theorem waitLoop_trace (w : World) (self : LiquidCrystalEAX) (start timeout : Nat)
    (fuel : Nat) (busyState : Level) (s : Hal) :
    ∃ evs, (waitLoop w self start timeout fuel busyState s).state.trace = s.trace ++ evs ∧
      ∀ e ∈ evs, pollEvent self e := by
  induction fuel generalizing busyState s with
  | zero => exact ⟨[], by simp [waitLoop, Outcome.state], by simp⟩
  | succ fuel ih =>
    rw [waitLoop_succ]
    by_cases hb : busyState = Level.HIGH
    · by_cases hc : (if (millis w s).1 < start then 1 else 0) < timeout
      · rw [if_pos hb, if_pos hc]
        obtain ⟨evs, h1, h2⟩ := ih
          (digitalRead w (self.m_pinData 7) (enableBusyRead self (millis w s).2)).1
          (disableBusyRead self
            (digitalRead w (self.m_pinData 7) (enableBusyRead self (millis w s).2)).2)
        refine ⟨[Event.millis (w.millisAt s.millisCalls % 4294967296),
          Event.digitalWrite self.m_pinReadEnable Level.LOW, Event.delayMicroseconds 10,
          Event.digitalRead (self.m_pinData 7) (w.readAt s.readCalls),
          Event.digitalWrite self.m_pinReadEnable Level.HIGH,
          Event.delayMicroseconds 10] ++ evs, ?_, ?_⟩
        · rw [h1]
          simp [disableBusyRead, enableBusyRead, digitalRead, millis, digitalWrite,
            delayMicroseconds, Hal.emit]
        · intro e he
          rcases List.mem_append.1 he with h | h
          · simp at h
            rcases h with rfl | rfl | rfl | rfl | rfl | rfl <;> simp [pollEvent]
          · exact h2 e h
      · rw [if_pos hb, if_neg hc]
        exact ⟨[Event.millis (w.millisAt s.millisCalls % 4294967296)],
          by simp [Outcome.state, millis], by simp [pollEvent]⟩
    · rw [if_neg hb]
      exact ⟨[], by simp [Outcome.state], by simp⟩

/-- The calls a busy-poll adds to the trace, whether it returns or not. -/
theorem waitUntilNotBusy_trace (fuel : Nat) (w : World) (self : LiquidCrystalEAX)
    (timeout : Nat) (s : Hal) :
    ∃ evs, (self.waitUntilNotBusy fuel w timeout s).state.trace = s.trace ++ evs ∧
      ∀ e ∈ evs, pollEvent self e := by
  obtain ⟨evs, h1, h2⟩ := waitLoop_trace w self (millis w s).1 timeout fuel Level.HIGH
    (enableInstructionData self (pinMode (self.m_pinData 7) PinMode.INPUT_PULLUP (millis w s).2))
  unfold waitUntilNotBusy
  simp only []
  generalize waitLoop w self (millis w s).1 timeout fuel Level.HIGH
    (enableInstructionData self
      (pinMode (self.m_pinData 7) PinMode.INPUT_PULLUP (millis w s).2)) = o at h1
  have hpre : ∀ e ∈ [Event.millis (w.millisAt s.millisCalls % 4294967296),
      Event.pinMode (self.m_pinData 7) PinMode.INPUT_PULLUP,
      Event.digitalWrite self.m_pinDataSelect Level.LOW, Event.delayMicroseconds 10],
      pollEvent self e := by
    intro e he
    simp at he
    rcases he with rfl | rfl | rfl | rfl <;> simp [pollEvent]
  cases o with
  | hung s3 =>
    refine ⟨[Event.millis (w.millisAt s.millisCalls % 4294967296),
      Event.pinMode (self.m_pinData 7) PinMode.INPUT_PULLUP,
      Event.digitalWrite self.m_pinDataSelect Level.LOW, Event.delayMicroseconds 10] ++ evs,
      ?_, ?_⟩
    · simp only [Outcome.state] at h1
      simp [Outcome.bind, Outcome.state, h1, enableInstructionData, pinMode, millis,
        digitalWrite, delayMicroseconds, Hal.emit]
    · intro e he
      rcases List.mem_append.1 he with h | h
      · exact hpre e h
      · exact h2 e h
  | done busyState s3 =>
    refine ⟨[Event.millis (w.millisAt s.millisCalls % 4294967296),
      Event.pinMode (self.m_pinData 7) PinMode.INPUT_PULLUP,
      Event.digitalWrite self.m_pinDataSelect Level.LOW, Event.delayMicroseconds 10] ++ evs ++
      [Event.pinMode (self.m_pinData 7) PinMode.OUTPUT,
       Event.digitalWrite (self.m_pinData 7) Level.LOW], ?_, ?_⟩
    · simp only [Outcome.state] at h1
      simp [Outcome.bind, Outcome.state, h1, enableInstructionData, pinMode, millis,
        digitalWrite, delayMicroseconds, Hal.emit]
    · intro e he
      rcases List.mem_append.1 he with h | h
      · rcases List.mem_append.1 h with h | h
        · exact hpre e h
        · exact h2 e h
      · simp at h
        rcases h with rfl | rfl <;> simp [pollEvent]

theorem pollEvent_quiet (self : LiquidCrystalEAX) (hd : self.pinsDistinct) (e : Event)
    (h : pollEvent self e) : quiet self e := by
  obtain ⟨hsw, hrw, -, -, -⟩ := control_distinct self hd
  have h7 := (data_not_control self hd 7).2.2.1
  cases e with
  | digitalWrite pin val =>
    simp only [pollEvent] at h
    simp only [quiet]
    rcases h with rfl | ⟨-, rfl | rfl⟩
    · exact hrw
    · exact hsw
    · exact h7
  | _ => simp [quiet]

/-- The calls `poll` adds to the trace. -/
theorem poll_trace (fuel : Nat) (w : World) (self : LiquidCrystalEAX) (s : Hal) :
    ∃ evs, (poll fuel w self s).state.trace = s.trace ++ evs ∧
      ∀ e ∈ evs, pollEvent self e := by
  obtain ⟨evs, h1, h2⟩ := waitUntilNotBusy_trace fuel w self 100 s
  refine ⟨evs, ?_, h2⟩
  rw [← h1]
  unfold poll
  cases self.waitUntilNotBusy fuel w 100 s <;> rfl

/-- A busy-poll latches no transfer. -/
theorem poll_transfers (self : LiquidCrystalEAX) (hd : self.pinsDistinct) (fuel : Nat)
    (w : World) (s : Hal) (b : Bus) :
    (busRun self b (poll fuel w self s).state.trace).transfers =
      (busRun self b s.trace).transfers := by
  obtain ⟨evs, h1, h2⟩ := poll_trace fuel w self s
  rw [h1, busRun_append]
  exact busRun_quiet self evs (fun e he => pollEvent_quiet self hd e (h2 e he)) _

/-- A transfer followed by its busy-poll latches exactly one byte, whether the
poll returns or not. -/
theorem transfer_poll_transfers (self : LiquidCrystalEAX) (hd : self.pinsDistinct)
    (fuel : Nat) (w : World) (mode : Level) (data : Byte) (s : Hal) (b : Bus) :
    (busRun self b
        (poll fuel w self (s.emits (transferEvents self mode data))).state.trace).transfers =
      (busRun self b s.trace).transfers ++ [(mode, data.val)] := by
  rw [poll_transfers self hd]
  simp only [Hal.emits]
  rw [busRun_append, busRun_transferEvents self hd]

/-! ## validateCharacter -/

/-- Where plain char is unsigned, `validateCharacter` keeps the bytes of
[0x20, 0xDF] and maps every other byte to a space. -/
theorem validateCharacter_unsigned (p : Platform) (hp : p.charSigned = false) (c : Byte) :
    validateCharacter p c = if 0x20 ≤ c.val ∧ c.val ≤ 0xDF then c else 0x20 := by
  have hc := c.isLt
  unfold validateCharacter charValue
  simp only [hp, Bool.false_eq_true, false_and, if_false]
  by_cases h : 0x20 ≤ c.val ∧ c.val ≤ 0xDF
  · rw [if_pos h, if_neg]
    omega
  · rw [if_neg h, if_pos]
    omega

/-- Where plain char is signed, `validateCharacter` keeps the bytes of
[0x20, 0x7F] only: the bytes from 0x80 on are negative chars, below 0x20. -/
theorem validateCharacter_signed (p : Platform) (hp : p.charSigned = true) (c : Byte) :
    validateCharacter p c = if 0x20 ≤ c.val ∧ c.val ≤ 0x7F then c else 0x20 := by
  have hc := c.isLt
  unfold validateCharacter charValue
  simp only [hp, true_and]
  by_cases h : 0x20 ≤ c.val ∧ c.val ≤ 0x7F
  · rw [if_pos h, if_neg]
    split <;> omega
  · rw [if_neg h, if_pos]
    split <;> omega

/-- C1, at the failing input: on the AVR platform (plain char signed) the byte
0x80, which lies in [0x20, 0xDF], is not returned unchanged: `validateCharacter`
answers a space for it, and likewise for 0xDF. -/
theorem validateCharacter_avr_0x80 :
    (0x20 ≤ (0x80 : Byte).val ∧ (0x80 : Byte).val ≤ 0xDF) ∧
      validateCharacter avr 0x80 = 0x20 ∧ validateCharacter avr 0x80 ≠ 0x80 ∧
      validateCharacter avr 0xDF = 0x20 := by
  decide

/-! ## Single transfers -/

theorem bitLevel_eq_ofBit (data : Byte) (i : Fin 8) :
    bitLevel data i = Level.ofBit (data.val.testBit i.val) := by
  unfold bitLevel Level.ofBit Nat.testBit
  rw [Nat.land_comm]
  by_cases h : 1 &&& data.val >>> i.val = 0
  · simp [h]
  · simp [h]
    have h2 := Nat.mod_two_eq_zero_or_one (data.val >>> i.val)
    rcases h2 with h2 | h2 <;> simp [h2]

set_option maxRecDepth 100000 in
theorem cursorByte_aux : ∀ (a : Fin 64) (b : Fin 2),
    (((a.val ||| (b.val <<< 6) ||| (1 <<< 7)) % 256) >>> 7) &&& 1 = 1 ∧
      (((a.val ||| (b.val <<< 6) ||| (1 <<< 7)) % 256) >>> 6) &&& 1 = b.val ∧
      ((a.val ||| (b.val <<< 6) ||| (1 <<< 7)) % 256) &&& 0x3F = a.val := by
  decide

/-- The bits of the byte `setCursorPos` presents. -/
theorem cursorByte_bits (ch line : Byte) :
    ((toByte ((ch.val &&& 0x3F) ||| ((line.val &&& 1) <<< 6) ||| (1 <<< 7))).val >>> 7) &&& 1
        = 1 ∧
      ((toByte ((ch.val &&& 0x3F) ||| ((line.val &&& 1) <<< 6) ||| (1 <<< 7))).val >>> 6) &&& 1
        = line.val &&& 1 ∧
      (toByte ((ch.val &&& 0x3F) ||| ((line.val &&& 1) <<< 6) ||| (1 <<< 7))).val &&& 0x3F
        = ch.val &&& 0x3F := by
  have ha : ch.val &&& 0x3F < 64 := Nat.and_lt_two_pow ch.val (by decide : 0x3F < 2 ^ 6)
  have hb : line.val &&& 1 < 2 := Nat.and_lt_two_pow line.val (by decide : 1 < 2 ^ 1)
  exact cursorByte_aux ⟨ch.val &&& 0x3F, ha⟩ ⟨line.val &&& 1, hb⟩

/-- C2: `setCursorPos(ch, line)`, for every pair of bytes, is one transfer in
instruction mode (data-select low, the byte on D0..D7, the write-enable strobe)
followed by a busy-poll; the byte transferred has bit 7 set, bit 6 equal to
`line & 1` and bits 0-5 equal to `ch & 0x3F`; and with pairwise distinct pins
exactly that one byte is latched, in instruction mode. -/
theorem setCursorPos_transfer (self : LiquidCrystalEAX) (fuel : Nat) (w : World)
    (ch line : Byte) (s : Hal) :
    ∃ data : Byte,
      self.setCursorPos fuel w ch line s =
          poll fuel w self (s.emits (transferEvents self Level.LOW data)) ∧
        (data.val >>> 7) &&& 1 = 1 ∧
        (data.val >>> 6) &&& 1 = line.val &&& 1 ∧
        data.val &&& 0x3F = ch.val &&& 0x3F ∧
        (self.pinsDistinct →
          transmits self (self.setCursorPos fuel w ch line) [(Level.LOW, data.val)]) := by
  refine ⟨toByte ((ch.val &&& 0x3F) ||| ((line.val &&& 1) <<< 6) ||| (1 <<< 7)), ?_,
    (cursorByte_bits ch line).1, (cursorByte_bits ch line).2.1, (cursorByte_bits ch line).2.2,
    ?_⟩
  · simp [setCursorPos, enableInstructionData, doWrite_setData]
  · intro hd s1 b
    have h : self.setCursorPos fuel w ch line s1 = poll fuel w self (s1.emits
        (transferEvents self Level.LOW
          (toByte ((ch.val &&& 0x3F) ||| ((line.val &&& 1) <<< 6) ||| (1 <<< 7))))) := by
      simp [setCursorPos, enableInstructionData, doWrite_setData]
    rw [h, transfer_poll_transfers self hd]

/-- C2 at the pins 2..14, for column 70 and line 3 (both out of range). -/
theorem setCursorPos_transfer_witness :
    demoHandle.pinsDistinct ∧
    ∃ data : Byte,
      demoHandle.setCursorPos 3 readyWorld 70 3 Hal.start =
          poll 3 readyWorld demoHandle
            (Hal.start.emits (transferEvents demoHandle Level.LOW data)) ∧
        (data.val >>> 7) &&& 1 = 1 ∧
        (data.val >>> 6) &&& 1 = (3 : Byte).val &&& 1 ∧
        data.val &&& 0x3F = (70 : Byte).val &&& 0x3F ∧
        transmits demoHandle (demoHandle.setCursorPos 3 readyWorld 70 3) [(Level.LOW, data.val)] :=
  ⟨by decide,
    (setCursorPos_transfer demoHandle 3 readyWorld 70 3 Hal.start).imp
      (fun _ h => ⟨h.1, h.2.1, h.2.2.1, h.2.2.2.1, h.2.2.2.2 (by decide)⟩)⟩

/-- The calls of one transfer, written out. -/
theorem transferEvents_eq (self : LiquidCrystalEAX) (mode : Level) (data : Byte) :
    transferEvents self mode data =
      [.digitalWrite self.m_pinDataSelect mode, .delayMicroseconds 10,
       .digitalWrite (self.m_pinData 0) (Level.ofBit (data.val.testBit 0)),
       .digitalWrite (self.m_pinData 1) (Level.ofBit (data.val.testBit 1)),
       .digitalWrite (self.m_pinData 2) (Level.ofBit (data.val.testBit 2)),
       .digitalWrite (self.m_pinData 3) (Level.ofBit (data.val.testBit 3)),
       .digitalWrite (self.m_pinData 4) (Level.ofBit (data.val.testBit 4)),
       .digitalWrite (self.m_pinData 5) (Level.ofBit (data.val.testBit 5)),
       .digitalWrite (self.m_pinData 6) (Level.ofBit (data.val.testBit 6)),
       .digitalWrite (self.m_pinData 7) (Level.ofBit (data.val.testBit 7)),
       .delayMicroseconds 10,
       .digitalWrite self.m_pinWriteEnable .LOW, .delayMicroseconds 10,
       .digitalWrite self.m_pinWriteEnable .HIGH, .delayMicroseconds 10] := by
  rw [transferEvents, finRange_eight]
  simp only [List.map_cons, List.map_nil, bitLevel_eq_ofBit]
  rfl

/-- C8: for every command opcode, `sendInstruction` produces data-select low and
a 10 us settle, D0..D7 driven to bits 0..7 of the opcode and a 10 us settle,
write-enable low, 10 us, write-enable high, 10 us, and then exactly one busy-poll
with the default timeout of 100 ms, and nothing else; `clearDisplay()` does so
with the byte 0x01 (D0 high, D1..D7 low). -/
theorem sendInstruction_events (fuel : Nat) (w : World) (self : LiquidCrystalEAX)
    (cmd : Command) (s : Hal) :
    self.sendInstruction fuel w cmd s =
        (self.waitUntilNotBusy fuel w 100 (s.emits
          [.digitalWrite self.m_pinDataSelect .LOW, .delayMicroseconds 10,
           .digitalWrite (self.m_pinData 0) (Level.ofBit (cmd.toByte.val.testBit 0)),
           .digitalWrite (self.m_pinData 1) (Level.ofBit (cmd.toByte.val.testBit 1)),
           .digitalWrite (self.m_pinData 2) (Level.ofBit (cmd.toByte.val.testBit 2)),
           .digitalWrite (self.m_pinData 3) (Level.ofBit (cmd.toByte.val.testBit 3)),
           .digitalWrite (self.m_pinData 4) (Level.ofBit (cmd.toByte.val.testBit 4)),
           .digitalWrite (self.m_pinData 5) (Level.ofBit (cmd.toByte.val.testBit 5)),
           .digitalWrite (self.m_pinData 6) (Level.ofBit (cmd.toByte.val.testBit 6)),
           .digitalWrite (self.m_pinData 7) (Level.ofBit (cmd.toByte.val.testBit 7)),
           .delayMicroseconds 10,
           .digitalWrite self.m_pinWriteEnable .LOW, .delayMicroseconds 10,
           .digitalWrite self.m_pinWriteEnable .HIGH, .delayMicroseconds 10])).bind
          (fun _ s1 => .done () s1) ∧
      self.clearDisplay fuel w s =
        (self.waitUntilNotBusy fuel w 100 (s.emits
          [.digitalWrite self.m_pinDataSelect .LOW, .delayMicroseconds 10,
           .digitalWrite (self.m_pinData 0) .HIGH,
           .digitalWrite (self.m_pinData 1) .LOW,
           .digitalWrite (self.m_pinData 2) .LOW,
           .digitalWrite (self.m_pinData 3) .LOW,
           .digitalWrite (self.m_pinData 4) .LOW,
           .digitalWrite (self.m_pinData 5) .LOW,
           .digitalWrite (self.m_pinData 6) .LOW,
           .digitalWrite (self.m_pinData 7) .LOW,
           .delayMicroseconds 10,
           .digitalWrite self.m_pinWriteEnable .LOW, .delayMicroseconds 10,
           .digitalWrite self.m_pinWriteEnable .HIGH, .delayMicroseconds 10])).bind
          (fun _ s1 => .done () s1) := by
  constructor
  · rw [sendInstruction_eq, poll, transferEvents_eq]
  · rw [clearDisplay, sendInstruction_eq, poll, transferEvents_eq]
    rfl

/-- The byte for the letter a is valid on every platform. -/
theorem validateCharacter_a (p : Platform) : validateCharacter p 0x61 = 0x61 := by
  cases h : p.charSigned
  · rw [validateCharacter_unsigned p h]
    decide
  · rw [validateCharacter_signed p h]
    decide

/-- C9: for every character c, `write(c)` produces data-select high and a 10 us
settle, D0..D7 driven to the bits of `validateCharacter(c)` and a 10 us settle,
the write-enable strobe (low, 10 us, high, 10 us), one busy-poll, and then one
more 10 us delay as its last call; for the letter a the byte presented is 0x61. -/
theorem write_events (p : Platform) (fuel : Nat) (w : World) (self : LiquidCrystalEAX)
    (c : Byte) (s : Hal) :
    self.write p fuel w c s =
        (self.waitUntilNotBusy fuel w 100 (s.emits
          [.digitalWrite self.m_pinDataSelect .HIGH, .delayMicroseconds 10,
           .digitalWrite (self.m_pinData 0) (Level.ofBit ((validateCharacter p c).val.testBit 0)),
           .digitalWrite (self.m_pinData 1) (Level.ofBit ((validateCharacter p c).val.testBit 1)),
           .digitalWrite (self.m_pinData 2) (Level.ofBit ((validateCharacter p c).val.testBit 2)),
           .digitalWrite (self.m_pinData 3) (Level.ofBit ((validateCharacter p c).val.testBit 3)),
           .digitalWrite (self.m_pinData 4) (Level.ofBit ((validateCharacter p c).val.testBit 4)),
           .digitalWrite (self.m_pinData 5) (Level.ofBit ((validateCharacter p c).val.testBit 5)),
           .digitalWrite (self.m_pinData 6) (Level.ofBit ((validateCharacter p c).val.testBit 6)),
           .digitalWrite (self.m_pinData 7) (Level.ofBit ((validateCharacter p c).val.testBit 7)),
           .delayMicroseconds 10,
           .digitalWrite self.m_pinWriteEnable .LOW, .delayMicroseconds 10,
           .digitalWrite self.m_pinWriteEnable .HIGH, .delayMicroseconds 10])).bind
          (fun _ s1 => .done () (s1.emits [.delayMicroseconds 10])) ∧
      validateCharacter p 0x61 = 0x61 := by
  refine ⟨?_, validateCharacter_a p⟩
  rw [write, enableCharacterData, doWrite_setData, poll, transferEvents_eq]
  generalize self.waitUntilNotBusy fuel w 100 _ = o
  cases o <;> rfl

/-! ## The control operations -/

theorem sendInstruction_transmits (self : LiquidCrystalEAX) (hd : self.pinsDistinct)
    (fuel : Nat) (w : World) (cmd : Command) :
    transmits self (self.sendInstruction fuel w cmd) [(Level.LOW, cmd.toByte.val)] := by
  intro s b
  rw [sendInstruction_eq, transfer_poll_transfers self hd]

/-- C10: with pairwise distinct pins, each of these public control operations
transmits exactly one byte, in instruction mode, and it is the opcode of the
command table: softReset 0x10, clearDisplay 0x01, moveCursorHome 0x02,
returnCursor 0x03, setCursorDir 0x04 (increment) and 0x05 (decrement),
useBlockCursor 0x09, hideCursor 0x0E, showCursor 0x0F, displayOff 0x0C,
displayOn 0x0D, suppressDisplay 0x20 (on) and 0x60 (off). -/
theorem control_operations_transmit_opcode (self : LiquidCrystalEAX) (hd : self.pinsDistinct)
    (fuel : Nat) (w : World) :
    transmits self (self.softReset fuel w) [(Level.LOW, 0x10)] ∧
      transmits self (self.clearDisplay fuel w) [(Level.LOW, 0x01)] ∧
      transmits self (self.moveCursorHome fuel w) [(Level.LOW, 0x02)] ∧
      transmits self (self.returnCursor fuel w) [(Level.LOW, 0x03)] ∧
      transmits self (self.setCursorDir fuel w true) [(Level.LOW, 0x04)] ∧
      transmits self (self.setCursorDir fuel w false) [(Level.LOW, 0x05)] ∧
      transmits self (self.useBlockCursor fuel w) [(Level.LOW, 0x09)] ∧
      transmits self (self.hideCursor fuel w) [(Level.LOW, 0x0E)] ∧
      transmits self (self.showCursor fuel w) [(Level.LOW, 0x0F)] ∧
      transmits self (self.displayOff fuel w) [(Level.LOW, 0x0C)] ∧
      transmits self (self.displayOn fuel w) [(Level.LOW, 0x0D)] ∧
      transmits self (self.suppressDisplay fuel w true) [(Level.LOW, 0x20)] ∧
      transmits self (self.suppressDisplay fuel w false) [(Level.LOW, 0x60)] := by
  have h := sendInstruction_transmits self hd fuel w
  exact ⟨h .CMD_SYS_RESET, h .CMD_CLEAR_DISPLAY, h .CMD_CURSOR_HOME, h .CMD_CURSOR_RETURN,
    h .CMD_CURSOR_DIR_INC, h .CMD_CURSOR_DIR_DEC, h .CMD_CURSOR_FONT_BLOCK, h .CMD_CURSOR_OFF,
    h .CMD_CURSOR_ON, h .CMD_DISPLAY_OFF, h .CMD_DISPLAY_ON, h .CMD_SUPPRESS_ON,
    h .CMD_SUPPRESS_OFF⟩

/-- C10 at the pins 2..14. -/
theorem control_operations_transmit_opcode_witness :
    demoHandle.pinsDistinct ∧
      transmits demoHandle (demoHandle.softReset 3 readyWorld) [(Level.LOW, 0x10)] ∧
      transmits demoHandle (demoHandle.clearDisplay 3 readyWorld) [(Level.LOW, 0x01)] ∧
      transmits demoHandle (demoHandle.moveCursorHome 3 readyWorld) [(Level.LOW, 0x02)] ∧
      transmits demoHandle (demoHandle.returnCursor 3 readyWorld) [(Level.LOW, 0x03)] ∧
      transmits demoHandle (demoHandle.setCursorDir 3 readyWorld true) [(Level.LOW, 0x04)] ∧
      transmits demoHandle (demoHandle.setCursorDir 3 readyWorld false) [(Level.LOW, 0x05)] ∧
      transmits demoHandle (demoHandle.useBlockCursor 3 readyWorld) [(Level.LOW, 0x09)] ∧
      transmits demoHandle (demoHandle.hideCursor 3 readyWorld) [(Level.LOW, 0x0E)] ∧
      transmits demoHandle (demoHandle.showCursor 3 readyWorld) [(Level.LOW, 0x0F)] ∧
      transmits demoHandle (demoHandle.displayOff 3 readyWorld) [(Level.LOW, 0x0C)] ∧
      transmits demoHandle (demoHandle.displayOn 3 readyWorld) [(Level.LOW, 0x0D)] ∧
      transmits demoHandle (demoHandle.suppressDisplay 3 readyWorld true) [(Level.LOW, 0x20)] ∧
      transmits demoHandle (demoHandle.suppressDisplay 3 readyWorld false) [(Level.LOW, 0x60)] :=
  ⟨by decide, control_operations_transmit_opcode demoHandle (by decide) 3 readyWorld⟩

/-! ## The timeout of the busy-poll -/

/-- With a timeout of 2 ms or more the loop condition `(millis() < start) < timeout`
holds whatever the clock reads. -/
theorem timeout_test (now start timeout : Nat) (h : 2 ≤ timeout) :
    (if now < start then 1 else 0) < timeout := by
  split <;> omega

/-- With a timeout of 2 ms or more the loop only ends on a sample that reads low. -/
theorem waitLoop_done_low (w : World) (self : LiquidCrystalEAX) (start timeout : Nat)
    (h : 2 ≤ timeout) (fuel : Nat) (busyState : Level) (s : Hal) (r : Level) (s1 : Hal)
    (hr : waitLoop w self start timeout fuel busyState s = Outcome.done r s1) :
    r = Level.LOW := by
  induction fuel generalizing busyState s with
  | zero => simp [waitLoop] at hr
  | succ fuel ih =>
    rw [waitLoop_succ] at hr
    by_cases hb : busyState = Level.HIGH
    · rw [if_pos hb, if_pos (timeout_test _ _ _ h)] at hr
      exact ih _ _ hr
    · rw [if_neg hb] at hr
      injection hr with h1 h2
      subst h1
      cases busyState
      · rfl
      · exact absurd rfl hb

/-- With a timeout of 2 ms or more `waitUntilNotBusy` never returns false. -/
theorem waitUntilNotBusy_never_false (fuel : Nat) (w : World) (self : LiquidCrystalEAX)
    (timeout : Nat) (h : 2 ≤ timeout) (s : Hal) :
    (self.waitUntilNotBusy fuel w timeout s).result ≠ some false := by
  unfold waitUntilNotBusy
  simp only []
  generalize ho : waitLoop w self (millis w s).1 timeout fuel Level.HIGH _ = o
  cases o with
  | hung s3 => simp [Outcome.bind, Outcome.result]
  | done r s3 =>
    have hlow := waitLoop_done_low w self _ timeout h fuel _ _ r s3 ho
    simp [Outcome.bind, Outcome.result, hlow]

/-- While every sample reads high, and the timeout is 2 ms or more, the loop
goes on sampling: it uses up any amount of fuel, one sample per unit. -/
theorem waitLoop_stuck (w : World) (self : LiquidCrystalEAX) (start timeout : Nat)
    (h : 2 ≤ timeout) (hw : ∀ k, w.readAt k = Level.HIGH) (fuel : Nat) (s : Hal) :
    ∃ s1, waitLoop w self start timeout fuel Level.HIGH s = Outcome.hung s1 ∧
      s1.readCalls = s.readCalls + fuel := by
  induction fuel generalizing s with
  | zero => exact ⟨s, rfl, rfl⟩
  | succ fuel ih =>
    rw [waitLoop_succ, if_pos rfl, if_pos (timeout_test _ _ _ h)]
    have hread : (digitalRead w (self.m_pinData 7) (enableBusyRead self (millis w s).2)).1 =
        Level.HIGH := hw _
    rw [hread]
    obtain ⟨s1, h1, h2⟩ := ih (disableBusyRead self
      (digitalRead w (self.m_pinData 7) (enableBusyRead self (millis w s).2)).2)
    refine ⟨s1, h1, ?_⟩
    rw [h2]
    simp [disableBusyRead, digitalRead, enableBusyRead, millis, digitalWrite, delayMicroseconds,
      Hal.emit]
    omega

/-- A sample that reads low ends the loop at once: the loop returns with that
level and takes no further sample. -/
theorem waitLoop_low_sample (w : World) (self : LiquidCrystalEAX) (start timeout : Nat)
    (h : 2 ≤ timeout) (fuel : Nat) (s : Hal) (hlow : w.readAt s.readCalls = Level.LOW) :
    ∃ s1, waitLoop w self start timeout (fuel + 2) Level.HIGH s = Outcome.done Level.LOW s1 ∧
      s1.readCalls = s.readCalls + 1 := by
  have hread : (digitalRead w (self.m_pinData 7) (enableBusyRead self (millis w s).2)).1 =
      Level.LOW := hlow
  rw [waitLoop_succ, if_pos rfl, if_pos (timeout_test _ _ _ h), hread, waitLoop_succ,
    if_neg (by decide)]
  exact ⟨_, rfl, rfl⟩

/-- C5, the defect: with the default timeout of 100 ms `waitUntilNotBusy` never
returns false, whatever the clock and the busy flag do; and on a controller that
stays busy for five samples, with a timeout of 2 ms and a clock that advances
1 ms per reading, it returns true after six samples, although the only sample
taken before the 2 ms had elapsed read high. -/
theorem waitUntilNotBusy_reports_no_timeout :
    (∀ (fuel : Nat) (w : World) (self : LiquidCrystalEAX) (s : Hal),
        (self.waitUntilNotBusy fuel w 100 s).result ≠ some false) ∧
      (demoHandle.waitUntilNotBusy 10 lateWorld 2 Hal.start).result = some true ∧
      (demoHandle.waitUntilNotBusy 10 lateWorld 2 Hal.start).state.readCalls = 6 ∧
      (demoHandle.waitUntilNotBusy 10 lateWorld 2 Hal.start).state.millisCalls = 7 := by
  refine ⟨fun fuel w self s => waitUntilNotBusy_never_false fuel w self 100 (by decide) s,
    ?_, ?_, ?_⟩ <;> decide

/-- C6, at the failing input: with the default timeout of 100 ms, a busy flag that
reads high forever and a clock that advances 1 ms per reading, `waitUntilNotBusy`
does not return: whatever the fuel, it is still in its loop, and it has taken
one sample per unit of fuel. -/
theorem waitUntilNotBusy_stuck_never_returns :
    ∀ (fuel : Nat) (self : LiquidCrystalEAX) (s : Hal),
      (self.waitUntilNotBusy fuel stuckWorld 100 s).result = none ∧
        (self.waitUntilNotBusy fuel stuckWorld 100 s).state.readCalls = s.readCalls + fuel := by
  intro fuel self s
  obtain ⟨s1, h1, h2⟩ := waitLoop_stuck stuckWorld self (millis stuckWorld s).1 100
    (by decide) (fun _ => rfl) fuel
    (enableInstructionData self
      (pinMode (self.m_pinData 7) PinMode.INPUT_PULLUP (millis stuckWorld s).2))
  unfold waitUntilNotBusy
  simp only []
  rw [h1]
  refine ⟨rfl, ?_⟩
  simp only [Outcome.bind, Outcome.state]
  rw [h2]
  rfl

/-! ## moveCursor -/

/-- C3, at the failing input: -32768 is the smallest int of the AVR platform
(16-bit int) and its absolute value is 32768, but `moveCursor(-32768)` issues no
command at all: `dist *= -1` overflows and leaves dist negative, so the loop body
is never run. The same holds for -2147483648 where int has 32 bits. -/
theorem moveCursor_int_min :
    intMin avr = -32768 ∧ (-32768 : Int).natAbs = 32768 ∧
      (∀ (fuel : Nat) (w : World) (self : LiquidCrystalEAX) (s : Hal),
        self.moveCursor avr fuel w (-32768) s = Outcome.done () s) ∧
      (∀ (fuel : Nat) (w : World) (self : LiquidCrystalEAX) (s : Hal),
        self.moveCursor arm fuel w (-2147483648) s = Outcome.done () s) := by
  refine ⟨by decide, by decide, ?_, ?_⟩
  · intro fuel w self s
    have h : wrapInt avr (-32768 * -1) = -32768 := by decide
    unfold moveCursor
    simp only [h]
    rw [moveCursorLoop]
    simp
  · intro fuel w self s
    have h : wrapInt arm (-2147483648 * -1) = -2147483648 := by decide
    unfold moveCursor
    simp only [h]
    rw [moveCursorLoop]
    simp

end LiquidCrystalEAX

/-! ## The clock flag and the destructor -/

theorem keep_done (self : LiquidCrystalEAX) (o : Outcome Unit) (self1 : LiquidCrystalEAX)
    (s1 : Hal) (h : keep self o = Outcome.done self1 s1) : self1 = self := by
  cases o with
  | hung s => simp [keep, Outcome.bind] at h
  | done a s =>
    simp only [keep, Outcome.bind] at h
    injection h with h1 h2
    exact h1.symm

/-- One public call: the clock pin is kept, and the clock flag is set by
`enableClock()`, cleared by `disableClock()` and kept by every other call. -/
theorem Call.run_flag (p : Platform) (fuel : Nat) (w : World) (c : Call)
    (self : LiquidCrystalEAX) (s : Hal) (self1 : LiquidCrystalEAX) (s1 : Hal)
    (h : c.run p fuel w self s = Outcome.done self1 s1) :
    self1.m_pinClock = self.m_pinClock ∧
      self1.m_clockEnabled = clockFlagAfter [c] self.m_clockEnabled := by
  cases c
  case enableClock =>
    simp only [Call.run, LiquidCrystalEAX.enableClock] at h
    injection h with h1 h2
    subst h1
    exact ⟨rfl, rfl⟩
  case disableClock =>
    simp only [Call.run, LiquidCrystalEAX.disableClock] at h
    injection h with h1 h2
    subst h1
    exact ⟨rfl, rfl⟩
  case hardReset =>
    simp only [Call.run] at h
    injection h with h1 h2
    subst h1
    exact ⟨rfl, rfl⟩
  all_goals
    have h1 := keep_done _ _ _ _ h
    subst h1
    exact ⟨rfl, rfl⟩

theorem clockFlagAfter_cons (c : Call) (cs : List Call) (flag : Bool) :
    clockFlagAfter (c :: cs) flag = clockFlagAfter cs (clockFlagAfter [c] flag) := by
  cases c <;> rfl

/-- A sequence of public calls that returns leaves the flag `clockFlagAfter` computes. -/
theorem runCalls_flag (p : Platform) (fuel : Nat) (w : World) (cs : List Call)
    (self : LiquidCrystalEAX) (s : Hal) (self1 : LiquidCrystalEAX) (s1 : Hal)
    (h : runCalls p fuel w cs self s = Outcome.done self1 s1) :
    self1.m_pinClock = self.m_pinClock ∧
      self1.m_clockEnabled = clockFlagAfter cs self.m_clockEnabled := by
  induction cs generalizing self s with
  | nil =>
    simp only [runCalls] at h
    injection h with h1 h2
    subst h1
    exact ⟨rfl, rfl⟩
  | cons c cs ih =>
    simp only [runCalls] at h
    cases hc : c.run p fuel w self s with
    | hung s2 => simp [hc, Outcome.bind] at h
    | done self2 s2 =>
      rw [hc] at h
      simp only [Outcome.bind] at h
      obtain ⟨h1, h2⟩ := Call.run_flag p fuel w c self s self2 s2 hc
      obtain ⟨h3, h4⟩ := ih self2 s2 h
      rw [clockFlagAfter_cons, ← h2, ← h1]
      exact ⟨h3, h4⟩

theorem split_cons_iff (c : Call) (cs : List Call) :
    (∃ pre post, c :: cs = pre ++ Call.enableClock :: post ∧ Call.disableClock ∉ post) ↔
      (c = Call.enableClock ∧ Call.disableClock ∉ cs) ∨
        ∃ pre post, cs = pre ++ Call.enableClock :: post ∧ Call.disableClock ∉ post := by
  constructor
  · rintro ⟨pre, post, h, hp⟩
    cases pre with
    | nil =>
      simp only [List.nil_append] at h
      injection h with h1 h2
      subst h2
      exact Or.inl ⟨h1, hp⟩
    | cons x pre =>
      simp only [List.cons_append] at h
      injection h with h1 h2
      exact Or.inr ⟨pre, post, h2, hp⟩
  · rintro (⟨rfl, hp⟩ | ⟨pre, post, h, hp⟩)
    · exact ⟨[], cs, rfl, hp⟩
    · exact ⟨c :: pre, post, by simp [h], hp⟩

/-- The flag is set after a sequence of calls exactly when the sequence holds a
call of `enableClock()` with no call of `disableClock()` after it, or the flag was
set before and the sequence holds no call of `disableClock()`. -/
theorem clockFlagAfter_iff (cs : List Call) (flag : Bool) :
    clockFlagAfter cs flag = true ↔
      (∃ pre post, cs = pre ++ Call.enableClock :: post ∧ Call.disableClock ∉ post) ∨
        (flag = true ∧ Call.disableClock ∉ cs) := by
  induction cs generalizing flag with
  | nil => simp [clockFlagAfter]
  | cons c cs ih =>
    rw [clockFlagAfter_cons, ih, split_cons_iff]
    generalize (∃ pre post, cs = pre ++ Call.enableClock :: post ∧
      Call.disableClock ∉ post) = P
    simp only [List.mem_cons, not_or]
    generalize (Call.disableClock ∈ cs) = Q
    cases c <;> cases flag <;> simp [clockFlagAfter] <;> tauto

/-- C7 as stated fails: on the handle with pins 2..14, after `enableClock()` and
then `disableClock()`, `enableClock()` has been called at an earlier point, and
yet the destructor makes no call at all: it does not stop the clock. -/
theorem destructor_after_disableClock :
    callsEnableClock [Call.enableClock, Call.disableClock] = true ∧
      runCalls avr 0 readyWorld [Call.enableClock, Call.disableClock] demoHandle Hal.start =
        Outcome.done { demoHandle with m_clockEnabled := false }
          ⟨[.tone 11 2000000, .noTone 11, .digitalWrite 11 .LOW], 0, 0⟩ ∧
      (LiquidCrystalEAX.destroy { demoHandle with m_clockEnabled := false }
        ⟨[.tone 11 2000000, .noTone 11, .digitalWrite 11 .LOW], 0, 0⟩).2.trace =
        [.tone 11 2000000, .noTone 11, .digitalWrite 11 .LOW] :=
  ⟨rfl, rfl, rfl⟩

/-- C7, amended: for a handle whose clock flag is clear, as the constructor leaves
it, and every sequence of public calls that returns, the destructor stops the
clock (`noTone` on the clock pin, then the pin driven low) if the sequence holds a
call of `enableClock()` with no call of `disableClock()` after it, and makes no
call otherwise; in particular it makes no call when `enableClock()` was never
called. -/
theorem destructor_stops_clock_iff (p : Platform) (fuel : Nat) (w : World) (cs : List Call)
    (self : LiquidCrystalEAX) (h0 : self.m_clockEnabled = false) (s : Hal)
    (self1 : LiquidCrystalEAX) (s1 : Hal)
    (hrun : runCalls p fuel w cs self s = Outcome.done self1 s1) :
    ((∃ pre post, cs = pre ++ Call.enableClock :: post ∧ Call.disableClock ∉ post) →
        (self1.destroy s1).2.trace =
          s1.trace ++ [.noTone self.m_pinClock, .digitalWrite self.m_pinClock .LOW]) ∧
      ((¬ ∃ pre post, cs = pre ++ Call.enableClock :: post ∧ Call.disableClock ∉ post) →
        (self1.destroy s1).2.trace = s1.trace) ∧
      (Call.enableClock ∉ cs → (self1.destroy s1).2.trace = s1.trace) := by
  obtain ⟨hpin, hflag⟩ := runCalls_flag p fuel w cs self s self1 s1 hrun
  have hiff := clockFlagAfter_iff cs self.m_clockEnabled
  rw [← hflag, h0] at hiff
  simp only [Bool.false_eq_true, false_and, or_false] at hiff
  have hyes :
      (∃ pre post, cs = pre ++ Call.enableClock :: post ∧ Call.disableClock ∉ post) →
      (self1.destroy s1).2.trace =
        s1.trace ++ [.noTone self.m_pinClock, .digitalWrite self.m_pinClock .LOW] := by
    intro h
    have hf : self1.m_clockEnabled = true := hiff.2 h
    simp [LiquidCrystalEAX.destroy, hf, LiquidCrystalEAX.disableClock, digitalWrite, noTone,
      Hal.emit, hpin]
  have hno :
      (¬ ∃ pre post, cs = pre ++ Call.enableClock :: post ∧ Call.disableClock ∉ post) →
      (self1.destroy s1).2.trace = s1.trace := by
    intro h
    have hf : self1.m_clockEnabled = false := by
      cases hb : self1.m_clockEnabled
      · rfl
      · exact absurd (hiff.1 hb) h
    simp [LiquidCrystalEAX.destroy, hf]
  refine ⟨hyes, hno, ?_⟩
  intro hnever
  apply hno
  rintro ⟨pre, post, hsplit, -⟩
  apply hnever
  rw [hsplit]
  simp

/-- C7 amended, on the handle with pins 2..14: after `clearDisplay()` (with a
ready controller) and `enableClock()` the destructor stops the clock. -/
theorem destructor_stops_clock_iff_witness :
    demoHandle.m_clockEnabled = false ∧
      runCalls avr 3 readyWorld [Call.clearDisplay, Call.enableClock] demoHandle Hal.start =
        Outcome.done { demoHandle with m_clockEnabled := true }
          (tone 11 2000000 (demoHandle.clearDisplay 3 readyWorld Hal.start).state) ∧
      (((∃ pre post, [Call.clearDisplay, Call.enableClock] = pre ++ Call.enableClock :: post ∧
            Call.disableClock ∉ post) →
          (LiquidCrystalEAX.destroy { demoHandle with m_clockEnabled := true }
              (tone 11 2000000 (demoHandle.clearDisplay 3 readyWorld Hal.start).state)).2.trace =
            (tone 11 2000000 (demoHandle.clearDisplay 3 readyWorld Hal.start).state).trace ++
              [.noTone demoHandle.m_pinClock, .digitalWrite demoHandle.m_pinClock .LOW]) ∧
        ((¬ ∃ pre post, [Call.clearDisplay, Call.enableClock] =
              pre ++ Call.enableClock :: post ∧ Call.disableClock ∉ post) →
          (LiquidCrystalEAX.destroy { demoHandle with m_clockEnabled := true }
              (tone 11 2000000 (demoHandle.clearDisplay 3 readyWorld Hal.start).state)).2.trace =
            (tone 11 2000000 (demoHandle.clearDisplay 3 readyWorld Hal.start).state).trace) ∧
        (Call.enableClock ∉ [Call.clearDisplay, Call.enableClock] →
          (LiquidCrystalEAX.destroy { demoHandle with m_clockEnabled := true }
              (tone 11 2000000 (demoHandle.clearDisplay 3 readyWorld Hal.start).state)).2.trace =
            (tone 11 2000000 (demoHandle.clearDisplay 3 readyWorld Hal.start).state).trace)) :=
  ⟨rfl, rfl, destructor_stops_clock_iff avr 3 readyWorld [Call.clearDisplay, Call.enableClock]
    demoHandle rfl Hal.start _ _ rfl⟩

/-! ## Fuel: more is as good, and a controller that answers needs finitely much -/

namespace LiquidCrystalEAX

theorem bind_eq_done {α β : Type} (o : Outcome α) (f : α → Hal → Outcome β) (r : β)
    (s1 : Hal) :
    o.bind f = Outcome.done r s1 ↔
      ∃ a s0, o = Outcome.done a s0 ∧ f a s0 = Outcome.done r s1 := by
  cases o with
  | hung s => simp [Outcome.bind]
  | done a s =>
    constructor
    · intro h
      exact ⟨a, s, rfl, h⟩
    · rintro ⟨a1, s0, h1, h2⟩
      injection h1 with h3 h4
      subst h3
      subst h4
      exact h2

theorem waitLoop_mono (w : World) (self : LiquidCrystalEAX) (start timeout : Nat)
    (fuel : Nat) (busyState : Level) (s : Hal) (r : Level) (s1 : Hal)
    (hr : waitLoop w self start timeout fuel busyState s = Outcome.done r s1) :
    waitLoop w self start timeout (fuel + 1) busyState s = Outcome.done r s1 := by
  induction fuel generalizing busyState s with
  | zero => simp [waitLoop] at hr
  | succ fuel ih =>
    rw [waitLoop_succ] at hr ⊢
    by_cases hb : busyState = Level.HIGH
    · by_cases hc : (if (millis w s).1 < start then 1 else 0) < timeout
      · rw [if_pos hb, if_pos hc] at hr ⊢
        exact ih _ _ hr
      · rw [if_pos hb, if_neg hc] at hr ⊢
        exact hr
    · rw [if_neg hb] at hr ⊢
      exact hr

theorem waitLoop_mono_le (w : World) (self : LiquidCrystalEAX) (start timeout : Nat)
    (fuel fuel1 : Nat) (hle : fuel ≤ fuel1) (busyState : Level) (s : Hal) (r : Level) (s1 : Hal)
    (hr : waitLoop w self start timeout fuel busyState s = Outcome.done r s1) :
    waitLoop w self start timeout fuel1 busyState s = Outcome.done r s1 := by
  induction fuel1, hle using Nat.le_induction with
  | base => exact hr
  | succ n _ ih => exact waitLoop_mono w self start timeout n busyState s r s1 ih

theorem waitUntilNotBusy_mono (fuel fuel1 : Nat) (hle : fuel ≤ fuel1) (w : World)
    (self : LiquidCrystalEAX) (timeout : Nat) (s : Hal) (r : Bool) (s1 : Hal)
    (hr : self.waitUntilNotBusy fuel w timeout s = Outcome.done r s1) :
    self.waitUntilNotBusy fuel1 w timeout s = Outcome.done r s1 := by
  unfold waitUntilNotBusy at hr ⊢
  simp only [] at hr ⊢
  obtain ⟨a, s0, h1, h2⟩ := (bind_eq_done _ _ _ _).1 hr
  rw [waitLoop_mono_le w self _ timeout fuel fuel1 hle _ _ a s0 h1]
  exact h2

theorem poll_mono (fuel fuel1 : Nat) (hle : fuel ≤ fuel1) (w : World)
    (self : LiquidCrystalEAX) (s : Hal) (s1 : Hal)
    (hr : poll fuel w self s = Outcome.done () s1) :
    poll fuel1 w self s = Outcome.done () s1 := by
  unfold poll at hr ⊢
  obtain ⟨a, s0, h1, h2⟩ := (bind_eq_done _ _ _ _).1 hr
  rw [waitUntilNotBusy_mono fuel fuel1 hle w self 100 s a s0 h1]
  exact h2

/-- The call `write(c)` is one transfer in character mode, its busy-poll and the final
delay. -/
theorem write_eq (p : Platform) (fuel : Nat) (w : World) (self : LiquidCrystalEAX) (c : Byte)
    (s : Hal) :
    self.write p fuel w c s =
      (poll fuel w self (s.emits (transferEvents self Level.HIGH (validateCharacter p c)))).bind
        (fun _ s1 => Outcome.done () (s1.emits [Event.delayMicroseconds 10])) := by
  rw [write, enableCharacterData, doWrite_setData]
  rfl

theorem write_mono (p : Platform) (fuel fuel1 : Nat) (hle : fuel ≤ fuel1) (w : World)
    (self : LiquidCrystalEAX) (c : Byte) (s : Hal) (s1 : Hal)
    (hr : self.write p fuel w c s = Outcome.done () s1) :
    self.write p fuel1 w c s = Outcome.done () s1 := by
  rw [write_eq] at hr ⊢
  obtain ⟨a, s0, h1, h2⟩ := (bind_eq_done _ _ _ _).1 hr
  rw [poll_mono fuel fuel1 hle w self _ s0 h1]
  exact h2

theorem writeChars_mono (p : Platform) (fuel fuel1 : Nat) (hle : fuel ≤ fuel1) (w : World)
    (self : LiquidCrystalEAX) (cs : List Byte) (s : Hal) (s1 : Hal)
    (hr : writeChars p fuel w self cs s = Outcome.done () s1) :
    writeChars p fuel1 w self cs s = Outcome.done () s1 := by
  induction cs generalizing s with
  | nil => exact hr
  | cons c cs ih =>
    simp only [writeChars] at hr ⊢
    obtain ⟨a, s0, h1, h2⟩ := (bind_eq_done _ _ _ _).1 hr
    rw [write_mono p fuel fuel1 hle w self c s s0 h1]
    exact ih s0 h2

/-- When a later sample reads low, and the timeout is 2 ms or more, the loop ends
with finitely much fuel, on a sample that reads low. -/
theorem waitLoop_ready (w : World) (self : LiquidCrystalEAX) (start timeout : Nat)
    (h : 2 ≤ timeout) (d : Nat) (s : Hal) (hlow : w.readAt (s.readCalls + d) = Level.LOW) :
    ∃ fuel s1, waitLoop w self start timeout fuel Level.HIGH s = Outcome.done Level.LOW s1 := by
  induction d generalizing s with
  | zero =>
    refine ⟨2, ?_⟩
    rw [waitLoop_succ, if_pos rfl, if_pos (timeout_test _ _ _ h)]
    have hread : (digitalRead w (self.m_pinData 7) (enableBusyRead self (millis w s).2)).1 =
        Level.LOW := hlow
    rw [hread, waitLoop_succ, if_neg (by decide)]
    exact ⟨_, rfl⟩
  | succ d ih =>
    cases hread : (digitalRead w (self.m_pinData 7) (enableBusyRead self (millis w s).2)).1 with
    | LOW =>
      refine ⟨2, ?_⟩
      rw [waitLoop_succ, if_pos rfl, if_pos (timeout_test _ _ _ h), hread, waitLoop_succ,
        if_neg (by decide)]
      exact ⟨_, rfl⟩
    | HIGH =>
      have hlow1 : w.readAt ((disableBusyRead self
          (digitalRead w (self.m_pinData 7) (enableBusyRead self (millis w s).2)).2).readCalls
          + d) = Level.LOW := by
        have hc : (disableBusyRead self (digitalRead w (self.m_pinData 7)
            (enableBusyRead self (millis w s).2)).2).readCalls = s.readCalls + 1 := rfl
        rw [hc, Nat.add_assoc, Nat.add_comm 1 d]
        exact hlow
      obtain ⟨fuel, s1, h1⟩ := ih _ hlow1
      refine ⟨fuel + 1, s1, ?_⟩
      rw [waitLoop_succ, if_pos rfl, if_pos (timeout_test _ _ _ h), hread]
      exact h1

/-- On a controller whose busy flag always reads low again, a busy-poll with a
timeout of 2 ms or more returns, and it returns true. -/
theorem waitUntilNotBusy_ready (w : World) (hw : w.eventuallyReady) (self : LiquidCrystalEAX)
    (timeout : Nat) (h : 2 ≤ timeout) (s : Hal) :
    ∃ fuel s1, self.waitUntilNotBusy fuel w timeout s = Outcome.done true s1 := by
  obtain ⟨j, hj, hlow⟩ := hw (enableInstructionData self
    (pinMode (self.m_pinData 7) PinMode.INPUT_PULLUP (millis w s).2)).readCalls
  obtain ⟨d, rfl⟩ := Nat.exists_eq_add_of_le hj
  obtain ⟨fuel, s1, h1⟩ := waitLoop_ready w self (millis w s).1 timeout h d _ hlow
  refine ⟨fuel, ?_⟩
  unfold waitUntilNotBusy
  simp only []
  rw [h1]
  exact ⟨_, rfl⟩

theorem poll_ready (w : World) (hw : w.eventuallyReady) (self : LiquidCrystalEAX) (s : Hal) :
    ∃ fuel s1, poll fuel w self s = Outcome.done () s1 := by
  obtain ⟨fuel, s1, h1⟩ := waitUntilNotBusy_ready w hw self 100 (by decide) s
  refine ⟨fuel, ?_⟩
  rw [poll, h1]
  exact ⟨_, rfl⟩

theorem write_ready (p : Platform) (w : World) (hw : w.eventuallyReady)
    (self : LiquidCrystalEAX) (c : Byte) (s : Hal) :
    ∃ fuel s1, self.write p fuel w c s = Outcome.done () s1 := by
  obtain ⟨fuel, s1, h1⟩ := poll_ready w hw self
    (s.emits (transferEvents self Level.HIGH (validateCharacter p c)))
  refine ⟨fuel, ?_⟩
  rw [write_eq, h1]
  exact ⟨_, rfl⟩

theorem writeChars_ready (p : Platform) (w : World) (hw : w.eventuallyReady)
    (self : LiquidCrystalEAX) (cs : List Byte) (s : Hal) :
    ∃ fuel s1, writeChars p fuel w self cs s = Outcome.done () s1 := by
  induction cs generalizing s with
  | nil => exact ⟨0, s, rfl⟩
  | cons c cs ih =>
    obtain ⟨f1, s1, h1⟩ := write_ready p w hw self c s
    obtain ⟨f2, s2, h2⟩ := ih s1
    refine ⟨max f1 f2, s2, ?_⟩
    simp only [writeChars]
    rw [write_mono p f1 (max f1 f2) (Nat.le_max_left f1 f2) w self c s s1 h1]
    exact writeChars_mono p f2 (max f1 f2) (Nat.le_max_right f1 f2) w self cs s1 s2 h2

/-! ## Writing a buffer -/

theorem nullSearch_spec (str : Nat → Byte) (n i : Nat) :
    i ≤ nullSearch str n i ∧ nullSearch str n i ≤ i + n ∧
      (∀ j, i ≤ j → j < nullSearch str n i → str j ≠ 0) ∧
      (nullSearch str n i < i + n → str (nullSearch str n i) = 0) := by
  induction n generalizing i with
  | zero =>
    refine ⟨Nat.le_refl i, Nat.le_refl i, ?_, ?_⟩
    · intro j h1 h2
      simp only [nullSearch] at h2
      omega
    · intro h
      simp only [nullSearch] at h
      omega
  | succ n ih =>
    by_cases h0 : str i = 0
    · simp only [nullSearch, if_pos h0]
      refine ⟨Nat.le_refl i, by omega, ?_, fun _ => h0⟩
      intro j h1 h2
      omega
    · simp only [nullSearch, if_neg h0]
      obtain ⟨h1, h2, h3, h4⟩ := ih (i + 1)
      refine ⟨by omega, by omega, ?_, ?_⟩
      · intro j hj1 hj2
        by_cases hji : j = i
        · rw [hji]
          exact h0
        · exact h3 j (by omega) hj2
      · intro h
        exact h4 (by omega)

/-- The offset `firstNull str bound` is the smaller of `bound` and the offset of
the first null byte: no byte before it is null, and it holds a null byte unless it
equals `bound`. -/
theorem firstNull_spec (str : Nat → Byte) (bound : Nat) :
    firstNull str bound ≤ bound ∧ (∀ j, j < firstNull str bound → str j ≠ 0) ∧
      (firstNull str bound < bound → str (firstNull str bound) = 0) := by
  obtain ⟨-, h2, h3, h4⟩ := nullSearch_spec str bound 0
  refine ⟨by simpa using h2, fun j hj => h3 j (Nat.zero_le j) hj, ?_⟩
  intro h
  exact h4 (by simpa using h)

/-- The loop of `write(str, length)`, from the counter value i on, writes the
characters at the offsets i, .., k - 1, where k is the stopping offset. -/
theorem writeLoop_eq (p : Platform) (fuel : Nat) (w : World) (self : LiquidCrystalEAX)
    (str : Nat → Byte) (length : Byte) (k : Nat) (hk : k ≤ length.val)
    (hnz : ∀ j, j < k → str j ≠ 0) (hz : k < length.val → str k = 0)
    (d : Nat) (i : Byte) (hi : i.val + d = k) (s : Hal) :
    writeLoop p fuel w self str length i s =
      writeChars p fuel w self ((List.range' i.val d).map str) s := by
  induction d generalizing i s with
  | zero =>
    have hik : i.val = k := by omega
    rw [writeLoop]
    by_cases hlt : i.val < length.val
    · rw [if_pos hlt, if_pos (by rw [hik]; exact hz (by omega))]
      rfl
    · rw [if_neg hlt]
      rfl
  | succ d ih =>
    have hlen := length.isLt
    have hlt : i.val < length.val := by omega
    have hne : str i.val ≠ 0 := hnz i.val (by omega)
    have hnext : (toByte (i.val + 1)).val = i.val + 1 := by
      simp only [toByte]
      omega
    rw [writeLoop, if_pos hlt, if_neg hne, List.range'_succ, List.map_cons]
    simp only [writeChars]
    congr 1
    funext _ s1
    rw [ih (toByte (i.val + 1)) (by omega) s1, hnext]

theorem write_str_eq (p : Platform) (fuel : Nat) (w : World) (self : LiquidCrystalEAX)
    (str : Nat → Byte) (length : Byte) (s : Hal) :
    self.write_str p fuel w str length s =
      writeChars p fuel w self ((List.range (firstNull str length.val)).map str) s := by
  obtain ⟨h1, h2, h3⟩ := firstNull_spec str length.val
  rw [write_str, writeLoop_eq p fuel w self str length (firstNull str length.val) h1 h2 h3
    (firstNull str length.val) 0 (by simp) s, List.range_eq_range']
  rfl

/-- With pairwise distinct pins `write(c)` transmits exactly one byte, in
character mode: `validateCharacter(c)`. -/
theorem write_transmits (p : Platform) (self : LiquidCrystalEAX) (hd : self.pinsDistinct)
    (fuel : Nat) (w : World) (c : Byte) :
    transmits self (self.write p fuel w c) [(Level.HIGH, (validateCharacter p c).val)] := by
  intro s b
  rw [write_eq, ← transfer_poll_transfers self hd fuel w Level.HIGH (validateCharacter p c) s b]
  generalize poll fuel w self (s.emits (transferEvents self Level.HIGH (validateCharacter p c)))
    = o
  cases o with
  | hung s1 => rfl
  | done a s1 =>
    simp only [Outcome.bind, Outcome.state, Hal.emits]
    rw [busRun_append]
    rfl

/-- When the writes of a list of characters return, exactly their validated bytes
were transmitted, in character mode and in order. -/
theorem writeChars_transfers (p : Platform) (self : LiquidCrystalEAX) (hd : self.pinsDistinct)
    (fuel : Nat) (w : World) (cs : List Byte) (s s1 : Hal)
    (hr : writeChars p fuel w self cs s = Outcome.done () s1) (b : Bus) :
    (busRun self b s1.trace).transfers =
      (busRun self b s.trace).transfers ++
        cs.map (fun c => (Level.HIGH, (validateCharacter p c).val)) := by
  induction cs generalizing s with
  | nil =>
    simp only [writeChars] at hr
    injection hr with h1 h2
    subst h2
    simp
  | cons c cs ih =>
    simp only [writeChars] at hr
    obtain ⟨a, s0, h1, h2⟩ := (bind_eq_done _ _ _ _).1 hr
    have hw := write_transmits p self hd fuel w c s b
    rw [h1] at hw
    simp only [Outcome.state] at hw
    rw [ih s0 h2, hw]
    simp

/-- C4: `write(str, length)`, for every buffer and every length in 0..255,
writes exactly the first k characters of the buffer, in order, each with
`write(char)`, where k is the smaller of length and the offset of the first null
byte. The loop ends for every length: on a controller whose busy flag always
reads low again the call returns (with enough fuel for its polls), and with
pairwise distinct pins what it has transmitted is the (validated) bytes of those
k characters, in character mode. -/
theorem write_str_first_chars (p : Platform) (self : LiquidCrystalEAX) (w : World)
    (str : Nat → Byte) (length : Byte) (s : Hal) :
    (firstNull str length.val ≤ length.val ∧
        (∀ j, j < firstNull str length.val → str j ≠ 0) ∧
        (firstNull str length.val < length.val → str (firstNull str length.val) = 0)) ∧
      (∀ fuel, self.write_str p fuel w str length s =
        writeChars p fuel w self ((List.range (firstNull str length.val)).map str) s) ∧
      (w.eventuallyReady →
        ∃ fuel0 s1,
          (∀ fuel, fuel0 ≤ fuel →
            self.write_str p fuel w str length s = Outcome.done () s1) ∧
          (self.pinsDistinct →
            ∀ b, (busRun self b s1.trace).transfers =
              (busRun self b s.trace).transfers ++
                ((List.range (firstNull str length.val)).map str).map
                  (fun c => (Level.HIGH, (validateCharacter p c).val)))) := by
  refine ⟨firstNull_spec str length.val,
    fun fuel => write_str_eq p fuel w self str length s, ?_⟩
  intro hw
  obtain ⟨fuel0, s1, h1⟩ := writeChars_ready p w hw self
    ((List.range (firstNull str length.val)).map str) s
  refine ⟨fuel0, s1, ?_, ?_⟩
  · intro fuel hle
    rw [write_str_eq]
    exact writeChars_mono p fuel0 fuel hle w self _ s s1 h1
  · intro hd b
    exact writeChars_transfers p self hd fuel0 w _ s s1 h1 b

/-- C4 on the example of the specification: the buffer "AB\0CD" written with
length 5, on the handle with pins 2..14 and a ready controller; the characters
written are the two letters A and B. -/
theorem write_str_first_chars_witness :
    (demoHandle.pinsDistinct ∧ readyWorld.eventuallyReady) ∧
      (List.range (firstNull demoBuffer (5 : Byte).val)).map demoBuffer = [0x41, 0x42] ∧
      (∀ fuel, demoHandle.write_str avr fuel readyWorld demoBuffer 5 Hal.start =
        writeChars avr fuel readyWorld demoHandle
          ((List.range (firstNull demoBuffer (5 : Byte).val)).map demoBuffer) Hal.start) ∧
      ∃ fuel0 s1,
        (∀ fuel, fuel0 ≤ fuel →
          demoHandle.write_str avr fuel readyWorld demoBuffer 5 Hal.start =
            Outcome.done () s1) ∧
        ∀ b, (busRun demoHandle b s1.trace).transfers =
          (busRun demoHandle b Hal.start.trace).transfers ++
            ((List.range (firstNull demoBuffer (5 : Byte).val)).map demoBuffer).map
              (fun c => (Level.HIGH, (validateCharacter avr c).val)) :=
  ⟨⟨by decide, fun k => ⟨k, Nat.le_refl k, rfl⟩⟩, by decide,
    (write_str_first_chars avr demoHandle readyWorld demoBuffer 5 Hal.start).2.1,
    ((write_str_first_chars avr demoHandle readyWorld demoBuffer 5 Hal.start).2.2
      (fun k => ⟨k, Nat.le_refl k, rfl⟩)).imp
      (fun _ h => h.imp (fun _ h1 => ⟨h1.1, h1.2 (by decide)⟩))⟩

/-! ## moveCursor inside the range of int -/

/-- When the loop of `moveCursor` returns, it has transmitted its command once per
remaining iteration. -/
theorem moveCursorLoop_transfers (self : LiquidCrystalEAX) (hd : self.pinsDistinct)
    (fuel : Nat) (w : World) (cmd : Command) (dist : Int) (d : Nat) (i : Int)
    (hi : (dist - i).toNat = d) (s s1 : Hal)
    (hr : self.moveCursorLoop fuel w cmd dist i s = Outcome.done () s1) (b : Bus) :
    (busRun self b s1.trace).transfers =
      (busRun self b s.trace).transfers ++ List.replicate d (Level.LOW, cmd.toByte.val) := by
  induction d generalizing i s with
  | zero =>
    rw [moveCursorLoop, if_neg (by omega)] at hr
    injection hr with h1 h2
    subst h2
    simp
  | succ d ih =>
    rw [moveCursorLoop, if_pos (by omega)] at hr
    obtain ⟨a, s0, h1, h2⟩ := (bind_eq_done _ _ _ _).1 hr
    have hs := sendInstruction_transmits self hd fuel w cmd s b
    rw [h1] at hs
    simp only [Outcome.state] at hs
    rw [ih (i + 1) (by omega) s0 h2, hs, List.replicate_succ]
    simp

/-- Negation inside the range of int: for n above the smallest int, `n * -1` is
not changed by the reduction to int. -/
theorem wrapInt_neg (p : Platform) (hp : 1 ≤ p.intBits) (n : Int) (h1 : intMin p < n)
    (h2 : n < 0) : wrapInt p (n * -1) = -n := by
  unfold wrapInt
  unfold intMin at h1
  have hpow : (2 : Int) ^ p.intBits = 2 * (2 : Int) ^ (p.intBits - 1) := by
    obtain ⟨k, hk⟩ := Nat.exists_eq_add_of_le hp
    rw [hk, Nat.add_comm 1 k, Nat.add_sub_cancel, pow_succ]
    ring
  rw [hpow]
  generalize (2 : Int) ^ (p.intBits - 1) = m at h1 ⊢
  rw [Int.emod_eq_of_lt (by omega) (by omega)]
  omega

/-- For every int n above the smallest one, when `moveCursor(n)` returns it has
transmitted exactly |n| commands: 0x06 each for n > 0, 0x07 each for n < 0. -/
theorem moveCursor_transfers (p : Platform) (hp : 1 ≤ p.intBits) (self : LiquidCrystalEAX)
    (hd : self.pinsDistinct) (fuel : Nat) (w : World) (n : Int) (h1 : intMin p < n)
    (s s1 : Hal) (hr : self.moveCursor p fuel w n s = Outcome.done () s1) (b : Bus) :
    (busRun self b s1.trace).transfers =
      (busRun self b s.trace).transfers ++
        List.replicate n.natAbs (Level.LOW, if n > 0 then 0x06 else 0x07) := by
  unfold moveCursor at hr
  simp only [] at hr
  by_cases hneg : n < 0
  · rw [if_pos hneg, wrapInt_neg p hp n h1 hneg, if_neg (by omega)] at hr
    rw [moveCursorLoop_transfers self hd fuel w _ (-n) n.natAbs 0 (by omega) s s1 hr b,
      if_neg (by omega)]
    rfl
  · rw [if_neg hneg] at hr
    by_cases hpos : n > 0
    · rw [if_pos hpos] at hr
      rw [moveCursorLoop_transfers self hd fuel w _ n n.natAbs 0 (by omega) s s1 hr b,
        if_pos hpos]
      rfl
    · rw [if_neg hpos] at hr
      rw [moveCursorLoop_transfers self hd fuel w _ n n.natAbs 0 (by omega) s s1 hr b,
        if_neg hpos]
      rfl

/-! ## A timeout of 0 -/

/-- C20: with a timeout of 0, `waitUntilNotBusy` takes no sample of the busy pin
(read-enable is not driven at all, `digitalRead` is not called) and returns false,
whatever the clock and the busy flag do, also when the flag would read low. Its
calls are: the clock reading, D7 to input with pull-up, data-select low and the
10 us settle, the clock reading of the loop test, D7 to output, D7 low. -/
theorem waitUntilNotBusy_zero (fuel : Nat) (w : World) (self : LiquidCrystalEAX) (s : Hal) :
    self.waitUntilNotBusy (fuel + 1) w 0 s =
      Outcome.done false
        { trace := s.trace ++
            [.millis (w.millisAt s.millisCalls % 4294967296),
             .pinMode (self.m_pinData 7) .INPUT_PULLUP,
             .digitalWrite self.m_pinDataSelect .LOW, .delayMicroseconds 10,
             .millis (w.millisAt (s.millisCalls + 1) % 4294967296),
             .pinMode (self.m_pinData 7) .OUTPUT,
             .digitalWrite (self.m_pinData 7) .LOW],
          millisCalls := s.millisCalls + 2,
          readCalls := s.readCalls } := by
  unfold waitUntilNotBusy
  simp only []
  rw [waitLoop_succ, if_pos rfl, if_neg (by split <;> omega)]
  simp [Outcome.bind, millis, pinMode, digitalWrite, delayMicroseconds, enableInstructionData,
    Hal.emit]

/-! ## setData -/

/-- Levels of the data lines after a run of writes to data lines, for pairwise
distinct data pins. -/
theorem busRun_level_data_inj (self : LiquidCrystalEAX)
    (hinj : Function.Injective self.m_pinData)
    (f : Fin 8 → Level) (l : List (Fin 8)) (j : Fin 8) (b : Bus) :
    (busRun self b (l.map (fun i => Event.digitalWrite (self.m_pinData i) (f i)))).level
        (self.m_pinData j) =
      if j ∈ l then f j else b.level (self.m_pinData j) := by
  induction l generalizing b with
  | nil => simp [busRun_nil]
  | cons a l ih =>
    rw [List.map_cons, busRun_cons, ih]
    by_cases hj : j ∈ l
    · simp [hj]
    · by_cases hja : j = a
      · subst hja
        simp [hj, busStep]
      · have hne : self.m_pinData j ≠ self.m_pinData a := fun h => hja (hinj h)
        simp [hj, hja, busStep, Function.update_apply, hne]

/-- C16: for every byte v, `setData(v)` drives D0..D7, in this order, each to high
exactly when the bit of that index is 1 in v, and then waits 10 us; with pairwise
distinct data pins the byte read back from the eight levels, the sum over i of
level(D_i) * 2^i, is v. -/
theorem setData_levels (self : LiquidCrystalEAX) (v : Byte) (s : Hal) :
    self.setData v s = s.emits
        [.digitalWrite (self.m_pinData 0) (Level.ofBit (v.val.testBit 0)),
         .digitalWrite (self.m_pinData 1) (Level.ofBit (v.val.testBit 1)),
         .digitalWrite (self.m_pinData 2) (Level.ofBit (v.val.testBit 2)),
         .digitalWrite (self.m_pinData 3) (Level.ofBit (v.val.testBit 3)),
         .digitalWrite (self.m_pinData 4) (Level.ofBit (v.val.testBit 4)),
         .digitalWrite (self.m_pinData 5) (Level.ofBit (v.val.testBit 5)),
         .digitalWrite (self.m_pinData 6) (Level.ofBit (v.val.testBit 6)),
         .digitalWrite (self.m_pinData 7) (Level.ofBit (v.val.testBit 7)),
         .delayMicroseconds 10] ∧
      (Function.Injective self.m_pinData →
        ∀ b : Bus, busByte self (busRun self b (self.setData v s).trace).level = v.val) := by
  constructor
  · rw [setData_eq, finRange_eight]
    simp only [List.map_cons, List.map_nil, bitLevel_eq_ofBit]
    rfl
  · intro hinj b
    apply busByte_bitLevel
    intro i
    rw [setData_eq]
    simp only [Hal.emits]
    rw [← List.append_assoc, busRun_append, busRun_cons, busRun_nil]
    simp only [busStep]
    rw [busRun_append, busRun_level_data_inj self hinj]
    simp [List.mem_finRange]

/-- C16 at the pins 2..14, for the byte 0xA5. -/
theorem setData_levels_witness :
    Function.Injective demoHandle.m_pinData ∧
      demoHandle.setData 0xA5 Hal.start = Hal.start.emits
        [.digitalWrite (demoHandle.m_pinData 0) (Level.ofBit ((0xA5 : Byte).val.testBit 0)),
         .digitalWrite (demoHandle.m_pinData 1) (Level.ofBit ((0xA5 : Byte).val.testBit 1)),
         .digitalWrite (demoHandle.m_pinData 2) (Level.ofBit ((0xA5 : Byte).val.testBit 2)),
         .digitalWrite (demoHandle.m_pinData 3) (Level.ofBit ((0xA5 : Byte).val.testBit 3)),
         .digitalWrite (demoHandle.m_pinData 4) (Level.ofBit ((0xA5 : Byte).val.testBit 4)),
         .digitalWrite (demoHandle.m_pinData 5) (Level.ofBit ((0xA5 : Byte).val.testBit 5)),
         .digitalWrite (demoHandle.m_pinData 6) (Level.ofBit ((0xA5 : Byte).val.testBit 6)),
         .digitalWrite (demoHandle.m_pinData 7) (Level.ofBit ((0xA5 : Byte).val.testBit 7)),
         .delayMicroseconds 10] ∧
      ∀ b : Bus,
        busByte demoHandle (busRun demoHandle b (demoHandle.setData 0xA5 Hal.start).trace).level =
          (0xA5 : Byte).val :=
  ⟨fun i j h => data_inj demoHandle (by decide) i j h,
    (setData_levels demoHandle 0xA5 Hal.start).1,
    (setData_levels demoHandle 0xA5 Hal.start).2
      (fun i j h => data_inj demoHandle (by decide) i j h)⟩

/-! ## init -/

theorem initPins_eq (self : LiquidCrystalEAX) (s : Hal) :
    self.initPins s = s.emits (initEvents self) := by
  unfold initPins
  simp only [foldl_pinMode, foldl_digitalWrite]
  simp only [finRange_eight, pinMode, digitalWrite, delay, emit_eq_emits, emits_emits,
    initEvents, List.map_cons, List.map_nil, List.cons_append, List.nil_append,
    List.append_assoc]

/-- The call `init()` is the pin set-up, then the transfer of display-on and its
busy-poll. -/
theorem init_eq (fuel : Nat) (w : World) (self : LiquidCrystalEAX) (s : Hal) :
    self.init fuel w s =
      poll fuel w self
        (s.emits (initEvents self ++ transferEvents self Level.LOW 0x0D)) := by
  rw [init, displayOn, sendInstruction_eq, initPins_eq, emits_emits]
  rfl

/-- Calls other than the one that drives write-enable low latch nothing. -/
theorem busRun_no_strobe (self : LiquidCrystalEAX) (evs : List Event)
    (h : Event.digitalWrite self.m_pinWriteEnable Level.LOW ∉ evs) (b : Bus) :
    (busRun self b evs).transfers = b.transfers := by
  induction evs generalizing b with
  | nil => rfl
  | cons e evs ih =>
    have h1 : Event.digitalWrite self.m_pinWriteEnable Level.LOW ≠ e :=
      fun he => h (by simp [he])
    have h2 : Event.digitalWrite self.m_pinWriteEnable Level.LOW ∉ evs :=
      fun he => h (List.mem_cons_of_mem e he)
    rw [busRun_cons, ih h2]
    cases e with
    | digitalWrite pin val =>
      have hne : ¬ (pin = self.m_pinWriteEnable ∧ val = Level.LOW) := by
        rintro ⟨rfl, rfl⟩
        exact h1 rfl
      simp only [busStep, if_neg hne]
    | _ => rfl

theorem initEvents_no_strobe (self : LiquidCrystalEAX) (hd : self.pinsDistinct) :
    Event.digitalWrite self.m_pinWriteEnable Level.LOW ∉ initEvents self := by
  obtain ⟨hsw, -, -, hcw, -⟩ := control_distinct self hd
  have hdc := fun i => (data_not_control self hd i).2.2.1
  simp only [initEvents, List.mem_cons, List.mem_singleton, List.mem_nil_iff, not_or,
    Event.digitalWrite.injEq, reduceCtorEq, false_and, and_false, not_false_eq_true,
    and_true, true_and, or_false]
  refine ⟨fun h => hsw h.symm, fun h => hcw h.symm, ?_⟩
  refine ⟨fun h => hdc 0 h.symm, fun h => hdc 1 h.symm, fun h => hdc 2 h.symm,
    fun h => hdc 3 h.symm, fun h => hdc 4 h.symm, fun h => hdc 5 h.symm,
    fun h => hdc 6 h.symm, fun h => hdc 7 h.symm⟩

/-- With pairwise distinct pins `init()` transmits exactly one byte, in
instruction mode: the display-on command. -/
theorem init_transmits (self : LiquidCrystalEAX) (hd : self.pinsDistinct) (fuel : Nat)
    (w : World) : transmits self (self.init fuel w) [(Level.LOW, 0x0D)] := by
  intro s b
  rw [init_eq, ← emits_emits, transfer_poll_transfers self hd]
  simp only [Hal.emits]
  rw [busRun_append, busRun_no_strobe self _ (initEvents_no_strobe self hd)]
  rfl

/-- C12 as stated fails: on the handle with pins 2..14 and a ready controller,
`init()` returns and has transmitted one instruction, the display-on command
0x0D: it does not leave the display off. -/
theorem init_switches_display_on :
    (demoHandle.init 3 readyWorld Hal.start).result = some () ∧
      (busRun demoHandle ⟨fun _ => Level.LOW, []⟩
        (demoHandle.init 3 readyWorld Hal.start).state.trace).transfers =
        [(Level.LOW, 0x0D)] := by
  refine ⟨by decide, ?_⟩
  have h := init_transmits demoHandle (by decide) 3 readyWorld Hal.start
    ⟨fun _ => Level.LOW, []⟩
  rw [h]
  rfl

/-- C12, amended: `init()` configures the five control pins and D0..D7 as
outputs, drives data-select and clock low, write-enable, read-enable and reset
high, D0..D7 low, waits 50 ms, and then switches the display on: the transfer of
the display-on command 0x0D and its busy-poll follow, and with pairwise distinct
pins that command is the one byte `init()` transmits. -/
theorem init_events (fuel : Nat) (w : World) (self : LiquidCrystalEAX) (s : Hal) :
    self.init fuel w s =
        (self.waitUntilNotBusy fuel w 100 (s.emits
          ([.pinMode self.m_pinDataSelect .OUTPUT,
            .pinMode self.m_pinClock .OUTPUT,
            .pinMode self.m_pinWriteEnable .OUTPUT,
            .pinMode self.m_pinReadEnable .OUTPUT,
            .pinMode self.m_pinReset .OUTPUT,
            .pinMode (self.m_pinData 0) .OUTPUT,
            .pinMode (self.m_pinData 1) .OUTPUT,
            .pinMode (self.m_pinData 2) .OUTPUT,
            .pinMode (self.m_pinData 3) .OUTPUT,
            .pinMode (self.m_pinData 4) .OUTPUT,
            .pinMode (self.m_pinData 5) .OUTPUT,
            .pinMode (self.m_pinData 6) .OUTPUT,
            .pinMode (self.m_pinData 7) .OUTPUT,
            .digitalWrite self.m_pinDataSelect .LOW,
            .digitalWrite self.m_pinClock .LOW,
            .digitalWrite self.m_pinWriteEnable .HIGH,
            .digitalWrite self.m_pinReadEnable .HIGH,
            .digitalWrite self.m_pinReset .HIGH,
            .digitalWrite (self.m_pinData 0) .LOW,
            .digitalWrite (self.m_pinData 1) .LOW,
            .digitalWrite (self.m_pinData 2) .LOW,
            .digitalWrite (self.m_pinData 3) .LOW,
            .digitalWrite (self.m_pinData 4) .LOW,
            .digitalWrite (self.m_pinData 5) .LOW,
            .digitalWrite (self.m_pinData 6) .LOW,
            .digitalWrite (self.m_pinData 7) .LOW,
            .delay 50] ++ transferEvents self Level.LOW 0x0D))).bind
          (fun _ s1 => .done () s1) ∧
      (self.pinsDistinct → transmits self (self.init fuel w) [(Level.LOW, 0x0D)]) := by
  refine ⟨?_, fun hd => init_transmits self hd fuel w⟩
  rw [init_eq]
  rfl

/-- C12 amended, at the pins 2..14. -/
theorem init_events_witness :
    demoHandle.pinsDistinct ∧
      transmits demoHandle (demoHandle.init 3 readyWorld) [(Level.LOW, 0x0D)] :=
  ⟨by decide, (init_events 3 readyWorld demoHandle Hal.start).2 (by decide)⟩

/-- The call `init()` makes no call of `noTone`, whether it returns or not. -/
theorem init_no_noTone (fuel : Nat) (w : World) (self : LiquidCrystalEAX) (s : Hal) :
    ∃ evs, (self.init fuel w s).state.trace = s.trace ++ evs ∧
      ∀ pin, Event.noTone pin ∉ evs := by
  obtain ⟨evs, h1, h2⟩ := poll_trace fuel w self
    (s.emits (initEvents self ++ transferEvents self Level.LOW 0x0D))
  refine ⟨initEvents self ++ transferEvents self Level.LOW 0x0D ++ evs, ?_, ?_⟩
  · rw [init_eq, h1]
    simp [Hal.emits]
  · intro pin hmem
    rcases List.mem_append.1 hmem with h | h
    · rw [transferEvents_eq] at h
      simp [initEvents] at h
    · exact h2 _ h

/-- The destructor of a handle whose clock flag is set stops the clock. -/
theorem destroy_trace_enabled (self : LiquidCrystalEAX) (h : self.m_clockEnabled = true)
    (s : Hal) :
    (self.destroy s).2.trace =
      s.trace ++ [.noTone self.m_pinClock, .digitalWrite self.m_pinClock .LOW] := by
  simp [destroy, h, disableClock, noTone, digitalWrite, Hal.emit]

theorem done_of_result {α : Type} (o : Outcome α) (a : α) (h : o.result = some a) :
    o = Outcome.done a o.state := by
  cases o with
  | hung s => simp [Outcome.result] at h
  | done a1 s =>
    simp only [Outcome.result, Option.some.injEq] at h
    rw [h]
    rfl

/-- C17, at the failing input: `init()` never calls `noTone`; and on the handle
with pins 2..14, after `enableClock()` and then `init()` (with a ready
controller) the clock flag is still set, so that the destructor stops the clock
then. -/
theorem init_leaves_clock_running :
    (∀ (fuel : Nat) (w : World) (self : LiquidCrystalEAX) (s : Hal),
        ∃ evs, (self.init fuel w s).state.trace = s.trace ++ evs ∧
          ∀ pin, Event.noTone pin ∉ evs) ∧
      runCalls avr 3 readyWorld [Call.enableClock, Call.init] demoHandle Hal.start =
        Outcome.done (demoHandle.enableClock Hal.start).1
          ((demoHandle.enableClock Hal.start).1.init 3 readyWorld
            (demoHandle.enableClock Hal.start).2).state ∧
      (demoHandle.enableClock Hal.start).1.m_clockEnabled = true ∧
      (LiquidCrystalEAX.destroy (demoHandle.enableClock Hal.start).1
          ((demoHandle.enableClock Hal.start).1.init 3 readyWorld
            (demoHandle.enableClock Hal.start).2).state).2.trace =
        ((demoHandle.enableClock Hal.start).1.init 3 readyWorld
            (demoHandle.enableClock Hal.start).2).state.trace ++
          [.noTone 11, .digitalWrite 11 .LOW] := by
  refine ⟨init_no_noTone, ?_, rfl, ?_⟩
  · have h := done_of_result ((demoHandle.enableClock Hal.start).1.init 3 readyWorld
      (demoHandle.enableClock Hal.start).2) () (by decide)
    simp only [runCalls, Call.run, keep]
    rw [Outcome.bind, h]
    rfl
  · exact destroy_trace_enabled (demoHandle.enableClock Hal.start).1 rfl _

/-! ## useUnderlineCursor -/

theorem sendInstruction_mono (fuel fuel1 : Nat) (hle : fuel ≤ fuel1) (w : World)
    (self : LiquidCrystalEAX) (cmd : Command) (s s1 : Hal)
    (hr : self.sendInstruction fuel w cmd s = Outcome.done () s1) :
    self.sendInstruction fuel1 w cmd s = Outcome.done () s1 := by
  rw [sendInstruction_eq] at hr ⊢
  exact poll_mono fuel fuel1 hle w self _ s1 hr

theorem sendInstruction_ready (w : World) (hw : w.eventuallyReady) (self : LiquidCrystalEAX)
    (cmd : Command) (s : Hal) :
    ∃ fuel s1, self.sendInstruction fuel w cmd s = Outcome.done () s1 := by
  obtain ⟨fuel, s1, h⟩ := poll_ready w hw self
    (s.emits (transferEvents self Level.LOW cmd.toByte))
  exact ⟨fuel, s1, by rw [sendInstruction_eq, h]⟩

theorem toByte_underline : Command.CMD_CURSOR_FONT_UNDERLINE.toByte = 0x08 := rfl

theorem toByte_blink (blinking : Bool) :
    (if blinking then Command.CMD_CURSOR_UNDERLINE_BLINK_ON
      else Command.CMD_CURSOR_UNDERLINE_BLINK_OFF).toByte =
      if blinking then 0x0B else 0x0A := by
  cases blinking <;> rfl

/-- C11: for both values of blinking, `useUnderlineCursor(blinking)` is the
transfer of 0x08 with its busy-poll, then the transfer of 0x0B (blinking) or 0x0A
(not blinking) with its busy-poll. With pairwise distinct pins, when it returns
it has transmitted exactly these two bytes, in instruction mode and in this
order; and on a controller whose busy flag always reads low again it returns. -/
theorem useUnderlineCursor_two_commands (w : World) (self : LiquidCrystalEAX)
    (blinking : Bool) (s : Hal) :
    (∀ fuel, self.useUnderlineCursor fuel w blinking s =
        (poll fuel w self (s.emits (transferEvents self Level.LOW 0x08))).bind
          (fun _ s1 => poll fuel w self
            (s1.emits (transferEvents self Level.LOW (if blinking then 0x0B else 0x0A))))) ∧
      (self.pinsDistinct → ∀ fuel s1,
        self.useUnderlineCursor fuel w blinking s = Outcome.done () s1 →
        ∀ b, (busRun self b s1.trace).transfers =
          (busRun self b s.trace).transfers ++
            [(Level.LOW, 0x08), (Level.LOW, if blinking then 0x0B else 0x0A)]) ∧
      (w.eventuallyReady → ∃ fuel0 s1, ∀ fuel, fuel0 ≤ fuel →
        self.useUnderlineCursor fuel w blinking s = Outcome.done () s1) := by
  refine ⟨?_, ?_, ?_⟩
  · intro fuel
    unfold useUnderlineCursor
    simp only [sendInstruction_eq, toByte_blink, toByte_underline]
  · intro hd fuel s1 hr b
    unfold useUnderlineCursor at hr
    obtain ⟨a, s0, h1, h2⟩ := (bind_eq_done _ _ _ _).1 hr
    have t1 := sendInstruction_transmits self hd fuel w .CMD_CURSOR_FONT_UNDERLINE s b
    rw [h1] at t1
    have t2 := sendInstruction_transmits self hd fuel w
      (if blinking then .CMD_CURSOR_UNDERLINE_BLINK_ON else .CMD_CURSOR_UNDERLINE_BLINK_OFF) s0 b
    rw [h2] at t2
    simp only [Outcome.state] at t1 t2
    rw [t2, t1, toByte_blink, toByte_underline, List.append_assoc]
    cases blinking <;> rfl
  · intro hw
    obtain ⟨f1, s1, h1⟩ := sendInstruction_ready w hw self .CMD_CURSOR_FONT_UNDERLINE s
    obtain ⟨f2, s2, h2⟩ := sendInstruction_ready w hw self
      (if blinking then .CMD_CURSOR_UNDERLINE_BLINK_ON else .CMD_CURSOR_UNDERLINE_BLINK_OFF) s1
    refine ⟨max f1 f2, s2, ?_⟩
    intro fuel hle
    unfold useUnderlineCursor
    rw [sendInstruction_mono f1 fuel (le_trans (Nat.le_max_left f1 f2) hle) w self _ s s1 h1]
    exact sendInstruction_mono f2 fuel (le_trans (Nat.le_max_right f1 f2) hle) w self _ s1 s2 h2

/-- C11 at the pins 2..14 with a ready controller, for a blinking cursor: the
bytes transmitted are 0x08 and 0x0B. -/
theorem useUnderlineCursor_two_commands_witness :
    (demoHandle.pinsDistinct ∧ readyWorld.eventuallyReady ∧
        demoHandle.useUnderlineCursor 3 readyWorld true Hal.start =
          Outcome.done () (demoHandle.useUnderlineCursor 3 readyWorld true Hal.start).state) ∧
      (∀ b, (busRun demoHandle b
          (demoHandle.useUnderlineCursor 3 readyWorld true Hal.start).state.trace).transfers =
        (busRun demoHandle b Hal.start.trace).transfers ++
          [(Level.LOW, 0x08), (Level.LOW, if true then 0x0B else 0x0A)]) ∧
      ∃ fuel0 s1, ∀ fuel, fuel0 ≤ fuel →
        demoHandle.useUnderlineCursor fuel readyWorld true Hal.start = Outcome.done () s1 :=
  ⟨⟨by decide, fun k => ⟨k, Nat.le_refl k, rfl⟩, by decide⟩,
    (useUnderlineCursor_two_commands readyWorld demoHandle true Hal.start).2.1 (by decide) 3
      _ (by decide),
    (useUnderlineCursor_two_commands readyWorld demoHandle true Hal.start).2.2
      (fun k => ⟨k, Nat.le_refl k, rfl⟩)⟩

/-! ## The lines after a busy-poll -/

theorem lastLevel_append (q : Int) (a b : List Event) :
    lastLevel q (a ++ b) = b.foldl (levelStep q) (lastLevel q a) := by
  simp [lastLevel, List.foldl_append]

theorem lastMode_append (q : Int) (a b : List Event) :
    lastMode q (a ++ b) = b.foldl (modeStep q) (lastMode q a) := by
  simp [lastMode, List.foldl_append]

/-- A level is kept over calls that drive the pin to that level only. -/
theorem foldl_levelStep_const (q : Int) (x : Level) (evs : List Event)
    (h : ∀ v, Event.digitalWrite q v ∈ evs → v = x) :
    evs.foldl (levelStep q) (some x) = some x := by
  induction evs with
  | nil => rfl
  | cons e evs ih =>
    have h2 : ∀ v, Event.digitalWrite q v ∈ evs → v = x :=
      fun v hv => h v (List.mem_cons_of_mem e hv)
    rw [List.foldl_cons]
    have hstep : levelStep q (some x) e = some x := by
      cases e with
      | digitalWrite pin val =>
        by_cases hp : pin = q
        · subst hp
          have hv : val = x := h val (by simp)
          simp [levelStep, hv]
        · simp [levelStep, hp]
      | _ => rfl
    rw [hstep]
    exact ih h2

/-- A mode is kept over calls that do not configure the pin. -/
theorem foldl_modeStep_keep (q : Int) (acc : Option PinMode) (evs : List Event)
    (h : ∀ m, Event.pinMode q m ∉ evs) :
    evs.foldl (modeStep q) acc = acc := by
  induction evs generalizing acc with
  | nil => rfl
  | cons e evs ih =>
    have h2 : ∀ m, Event.pinMode q m ∉ evs :=
      fun m hm => h m (List.mem_cons_of_mem e hm)
    rw [List.foldl_cons, ih _ h2]
    cases e with
    | pinMode pin mode =>
      have hp : pin ≠ q := by
        intro hpq
        exact h mode (by simp [hpq])
      simp [modeStep, hp]
    | _ => rfl

/-- A level is kept over calls that do not drive the pin. -/
theorem foldl_levelStep_keep (q : Int) (acc : Option Level) (evs : List Event)
    (h : ∀ v, Event.digitalWrite q v ∉ evs) :
    evs.foldl (levelStep q) acc = acc := by
  induction evs generalizing acc with
  | nil => rfl
  | cons e evs ih =>
    have h2 : ∀ v, Event.digitalWrite q v ∉ evs :=
      fun v hv => h v (List.mem_cons_of_mem e hv)
    rw [List.foldl_cons, ih _ h2]
    cases e with
    | digitalWrite pin val =>
      have hp : pin ≠ q := by
        intro hpq
        exact h val (by simp [hpq])
      simp [levelStep, hp]
    | _ => rfl

/-- The idle state of the lines is kept over calls that leave data-select and D7
alone. -/
theorem idle_append (self : LiquidCrystalEAX) (tr evs : List Event) (h : idle self tr)
    (hu : ∀ e ∈ evs, untouched self e) : idle self (tr ++ evs) := by
  obtain ⟨h1, h2, h3⟩ := h
  refine ⟨?_, ?_, ?_⟩
  · rw [lastLevel_append, foldl_levelStep_keep, h1]
    intro v hv
    exact (hu _ hv).1 rfl
  · rw [lastLevel_append, foldl_levelStep_keep, h2]
    intro v hv
    exact (hu _ hv).2 rfl
  · rw [lastMode_append, foldl_modeStep_keep, h3]
    intro m hm
    exact hu _ hm rfl

/-- The calls of a busy-poll that returns: after the first clock reading and the
switch of D7 to input, data-select is driven low; the last two calls configure D7
as an output and drive it low. -/
theorem waitUntilNotBusy_done_trace (fuel : Nat) (w : World) (self : LiquidCrystalEAX)
    (timeout : Nat) (s : Hal) (r : Bool) (s1 : Hal)
    (hr : self.waitUntilNotBusy fuel w timeout s = Outcome.done r s1) :
    ∃ evs, s1.trace = s.trace ++
        [Event.millis (w.millisAt s.millisCalls % 4294967296),
         Event.pinMode (self.m_pinData 7) PinMode.INPUT_PULLUP,
         Event.digitalWrite self.m_pinDataSelect Level.LOW] ++ evs ++
        [Event.pinMode (self.m_pinData 7) PinMode.OUTPUT,
         Event.digitalWrite (self.m_pinData 7) Level.LOW] ∧
      ∀ e ∈ evs, pollEvent self e := by
  unfold waitUntilNotBusy at hr
  simp only [] at hr
  obtain ⟨a, s0, h1, h2⟩ := (bind_eq_done _ _ _ _).1 hr
  obtain ⟨evs, h3, h4⟩ := waitLoop_trace w self (millis w s).1 timeout fuel Level.HIGH
    (enableInstructionData self (pinMode (self.m_pinData 7) PinMode.INPUT_PULLUP (millis w s).2))
  rw [h1] at h3
  simp only [Outcome.state] at h3
  injection h2 with h5 h6
  refine ⟨Event.delayMicroseconds 10 :: evs, ?_, ?_⟩
  · rw [← h6]
    simp [h3, enableInstructionData, pinMode, millis, digitalWrite, delayMicroseconds, Hal.emit]
  · intro e he
    rcases List.mem_cons.1 he with rfl | h
    · simp [pollEvent]
    · exact h4 e h

/-- A busy-poll that returns leaves the lines idle. -/
theorem waitUntilNotBusy_idle (self : LiquidCrystalEAX) (hd : self.pinsDistinct) (fuel : Nat)
    (w : World) (timeout : Nat) (s : Hal) (r : Bool) (s1 : Hal)
    (hr : self.waitUntilNotBusy fuel w timeout s = Outcome.done r s1) :
    idle self s1.trace := by
  obtain ⟨evs, h1, h2⟩ := waitUntilNotBusy_done_trace fuel w self timeout s r s1 hr
  obtain ⟨-, -, hsr, -, -⟩ := control_distinct self hd
  rw [h1]
  refine ⟨?_, ?_, ?_⟩
  · have hsplit : s.trace ++
        [Event.millis (w.millisAt s.millisCalls % 4294967296),
         Event.pinMode (self.m_pinData 7) PinMode.INPUT_PULLUP,
         Event.digitalWrite self.m_pinDataSelect Level.LOW] ++ evs ++
        [Event.pinMode (self.m_pinData 7) PinMode.OUTPUT,
         Event.digitalWrite (self.m_pinData 7) Level.LOW] =
        (s.trace ++ [Event.millis (w.millisAt s.millisCalls % 4294967296),
          Event.pinMode (self.m_pinData 7) PinMode.INPUT_PULLUP]) ++
        ([Event.digitalWrite self.m_pinDataSelect Level.LOW] ++ (evs ++
          [Event.pinMode (self.m_pinData 7) PinMode.OUTPUT,
           Event.digitalWrite (self.m_pinData 7) Level.LOW])) := by
      simp
    rw [hsplit, lastLevel_append, List.foldl_append, List.foldl_cons, List.foldl_nil]
    have hfirst : levelStep self.m_pinDataSelect
        (lastLevel self.m_pinDataSelect (s.trace ++
          [Event.millis (w.millisAt s.millisCalls % 4294967296),
           Event.pinMode (self.m_pinData 7) PinMode.INPUT_PULLUP]))
        (Event.digitalWrite self.m_pinDataSelect Level.LOW) = some Level.LOW := by
      simp [levelStep]
    rw [hfirst]
    apply foldl_levelStep_const
    intro v hv
    rcases List.mem_append.1 hv with h | h
    · have hp := h2 _ h
      simp only [pollEvent] at hp
      rcases hp with hp | ⟨hp, -⟩
      · exact absurd hp hsr
      · exact hp
    · simp at h
      exact h.2
  · rw [lastLevel_append]
    simp [levelStep]
  · rw [lastMode_append]
    simp [modeStep]

theorem poll_idle (self : LiquidCrystalEAX) (hd : self.pinsDistinct) (fuel : Nat) (w : World)
    (s s1 : Hal) (hr : poll fuel w self s = Outcome.done () s1) : idle self s1.trace := by
  unfold poll at hr
  obtain ⟨a, s0, h1, h2⟩ := (bind_eq_done _ _ _ _).1 hr
  injection h2 with h3 h4
  rw [← h4]
  exact waitUntilNotBusy_idle self hd fuel w 100 s a s0 h1

theorem sendInstruction_idle (self : LiquidCrystalEAX) (hd : self.pinsDistinct) (fuel : Nat)
    (w : World) (cmd : Command) (s s1 : Hal)
    (hr : self.sendInstruction fuel w cmd s = Outcome.done () s1) : idle self s1.trace := by
  rw [sendInstruction_eq] at hr
  exact poll_idle self hd fuel w _ s1 hr

theorem setCursorPos_idle (self : LiquidCrystalEAX) (hd : self.pinsDistinct) (fuel : Nat)
    (w : World) (ch line : Byte) (s s1 : Hal)
    (hr : self.setCursorPos fuel w ch line s = Outcome.done () s1) : idle self s1.trace := by
  rw [setCursorPos, enableInstructionData, doWrite_setData] at hr
  exact poll_idle self hd fuel w _ s1 hr

theorem init_idle (self : LiquidCrystalEAX) (hd : self.pinsDistinct) (fuel : Nat)
    (w : World) (s s1 : Hal)
    (hr : self.init fuel w s = Outcome.done () s1) : idle self s1.trace := by
  rw [init_eq] at hr
  exact poll_idle self hd fuel w _ s1 hr

theorem write_idle (p : Platform) (self : LiquidCrystalEAX) (hd : self.pinsDistinct)
    (fuel : Nat) (w : World) (c : Byte) (s s1 : Hal)
    (hr : self.write p fuel w c s = Outcome.done () s1) : idle self s1.trace := by
  rw [write_eq] at hr
  obtain ⟨a, s0, h1, h2⟩ := (bind_eq_done _ _ _ _).1 hr
  injection h2 with h3 h4
  rw [← h4]
  apply idle_append self _ _ (poll_idle self hd fuel w _ s0 h1)
  intro e he
  simp only [List.mem_singleton] at he
  rw [he]
  trivial

theorem useUnderlineCursor_idle (self : LiquidCrystalEAX) (hd : self.pinsDistinct)
    (fuel : Nat) (w : World) (blinking : Bool) (s s1 : Hal)
    (hr : self.useUnderlineCursor fuel w blinking s = Outcome.done () s1) :
    idle self s1.trace := by
  unfold useUnderlineCursor at hr
  obtain ⟨a, s0, h1, h2⟩ := (bind_eq_done _ _ _ _).1 hr
  exact sendInstruction_idle self hd fuel w _ s0 s1 h2

/-- The writes of a list of characters, when they return, leave the lines idle,
unless the list is empty and nothing was done. -/
theorem writeChars_idle (p : Platform) (self : LiquidCrystalEAX) (hd : self.pinsDistinct)
    (fuel : Nat) (w : World) (cs : List Byte) (s s1 : Hal)
    (hr : writeChars p fuel w self cs s = Outcome.done () s1) :
    idle self s1.trace ∨ (cs = [] ∧ s1 = s) := by
  induction cs generalizing s with
  | nil =>
    simp only [writeChars] at hr
    injection hr with h1 h2
    exact Or.inr ⟨rfl, h2.symm⟩
  | cons c cs ih =>
    simp only [writeChars] at hr
    obtain ⟨a, s0, h1, h2⟩ := (bind_eq_done _ _ _ _).1 hr
    rcases ih s0 h2 with h | ⟨-, h⟩
    · exact Or.inl h
    · rw [h]
      exact Or.inl (write_idle p self hd fuel w c s s0 h1)

/-- The loop of `moveCursor`, when it returns, leaves the lines idle, unless it
made no iteration and nothing was done. -/
theorem moveCursorLoop_idle (self : LiquidCrystalEAX) (hd : self.pinsDistinct) (fuel : Nat)
    (w : World) (cmd : Command) (dist : Int) (d : Nat) (i : Int)
    (hi : (dist - i).toNat = d) (s s1 : Hal)
    (hr : self.moveCursorLoop fuel w cmd dist i s = Outcome.done () s1) :
    idle self s1.trace ∨ (¬ i < dist ∧ s1 = s) := by
  induction d generalizing i s with
  | zero =>
    rw [moveCursorLoop, if_neg (by omega)] at hr
    injection hr with h1 h2
    exact Or.inr ⟨by omega, h2.symm⟩
  | succ d ih =>
    rw [moveCursorLoop, if_pos (by omega)] at hr
    obtain ⟨a, s0, h1, h2⟩ := (bind_eq_done _ _ _ _).1 hr
    rcases ih (i + 1) (by omega) s0 h2 with h | ⟨-, h⟩
    · exact Or.inl h
    · rw [h]
      exact Or.inl (sendInstruction_idle self hd fuel w cmd s s0 h1)

/-! ## Writing a string object -/

/-- The loop of `write(const String &)`, from the counter value i on, writes the
chars at the offsets i, .., len - 1. -/
theorem writeStringLoop_eq (p : Platform) (fuel : Nat) (w : World) (self : LiquidCrystalEAX)
    (str : List Byte) (len : Int) (d : Nat) (i : Int) (h0 : 0 ≤ i)
    (hi : (len - i).toNat = d) (s : Hal) :
    self.writeStringLoop p fuel w str len i s =
      writeChars p fuel w self ((List.range' i.toNat d).map (fun k => str.getD k 0)) s := by
  induction d generalizing i s with
  | zero =>
    rw [writeStringLoop, if_neg (by omega)]
    rfl
  | succ d ih =>
    rw [writeStringLoop, if_pos (by omega), List.range'_succ, List.map_cons]
    simp only [writeChars]
    congr 1
    funext _ s1
    rw [ih (i + 1) (by omega) (by omega) s1]
    have hn : (i + 1).toNat = i.toNat + 1 := by omega
    rw [hn]

/-- The call `write(const String &)` writes the chars at the offsets below the
length, as converted to int. -/
theorem write_String_eq (p : Platform) (fuel : Nat) (w : World) (self : LiquidCrystalEAX)
    (str : List Byte) (s : Hal) :
    self.write_String p fuel w str s =
      writeChars p fuel w self
        ((List.range (wrapInt p str.length).toNat).map (fun k => str.getD k 0)) s := by
  rw [write_String, writeStringLoop_eq p fuel w self str _ (wrapInt p str.length).toNat 0
    (Int.le_refl 0) (by omega) s, List.range_eq_range']
  rfl

/-- A length below 2^(intBits - 1) is not changed by the conversion to int. -/
theorem wrapInt_length (p : Platform) (hp : 1 ≤ p.intBits) (n : Nat)
    (h : (n : Int) ≤ intMax p) : wrapInt p n = n := by
  unfold wrapInt
  unfold intMax at h
  have hpow : (2 : Int) ^ p.intBits = 2 * (2 : Int) ^ (p.intBits - 1) := by
    obtain ⟨k, hk⟩ := Nat.exists_eq_add_of_le hp
    rw [hk, Nat.add_comm 1 k, Nat.add_sub_cancel, pow_succ]
    ring
  rw [hpow]
  generalize (2 : Int) ^ (p.intBits - 1) = m at h ⊢
  rw [Int.emod_eq_of_lt (by omega) (by omega)]
  omega

theorem map_getD_range (str : List Byte) :
    (List.range str.length).map (fun k => str.getD k 0) = str := by
  apply List.ext_getElem
  · simp
  · intro n h1 h2
    simp [List.getD_eq_getElem?_getD, List.getElem?_eq_getElem h2]

/-- For a string object whose length fits the type int, `write(const String &)`
writes its chars, all of them and in order. -/
theorem write_String_eq_chars (p : Platform) (hp : 1 ≤ p.intBits) (fuel : Nat) (w : World)
    (self : LiquidCrystalEAX) (str : List Byte) (hlen : (str.length : Int) ≤ intMax p)
    (s : Hal) :
    self.write_String p fuel w str s = writeChars p fuel w self str s := by
  rw [write_String_eq, wrapInt_length p hp str.length hlen]
  simp only [Int.toNat_ofNat]
  rw [map_getD_range]

/-- A null char is not printable: it is written as a space. -/
theorem validateCharacter_null (p : Platform) : validateCharacter p 0 = 0x20 := by
  cases h : p.charSigned
  · rw [validateCharacter_unsigned p h]
    decide
  · rw [validateCharacter_signed p h]
    decide

/-- C13: for every string object whose length fits the type int, `write(s)`
writes its chars, all of them and in order, each with `write(char)`: there is no
early termination, a null char inside is written like any other (as a space,
0x20). On a controller whose busy flag always reads low again the call returns,
and with pairwise distinct pins the bytes it has transmitted, in character mode,
are `validateCharacter(s[i])` for i = 0..n-1 in order. -/
theorem write_String_all_chars (p : Platform) (hp : 1 ≤ p.intBits) (w : World)
    (self : LiquidCrystalEAX) (str : List Byte) (hlen : (str.length : Int) ≤ intMax p)
    (s : Hal) :
    (∀ fuel, self.write_String p fuel w str s = writeChars p fuel w self str s) ∧
      validateCharacter p 0 = 0x20 ∧
      (w.eventuallyReady →
        ∃ fuel0 s1,
          (∀ fuel, fuel0 ≤ fuel → self.write_String p fuel w str s = Outcome.done () s1) ∧
          (self.pinsDistinct →
            ∀ b, (busRun self b s1.trace).transfers =
              (busRun self b s.trace).transfers ++
                str.map (fun c => (Level.HIGH, (validateCharacter p c).val)))) := by
  refine ⟨fun fuel => write_String_eq_chars p hp fuel w self str hlen s,
    validateCharacter_null p, ?_⟩
  intro hw
  obtain ⟨fuel0, s1, h1⟩ := writeChars_ready p w hw self str s
  refine ⟨fuel0, s1, ?_, ?_⟩
  · intro fuel hle
    rw [write_String_eq_chars p hp fuel w self str hlen s]
    exact writeChars_mono p fuel0 fuel hle w self _ s s1 h1
  · intro hd b
    exact writeChars_transfers p self hd fuel0 w _ s s1 h1 b

/-- C13 on the string of the letter A, a null char and the letter B, on the AVR
platform, the handle with pins 2..14 and a ready controller: the bytes
transmitted are 0x41, 0x20, 0x42. -/
theorem write_String_all_chars_witness :
    (1 ≤ avr.intBits ∧ (demoString.length : Int) ≤ intMax avr ∧
        demoHandle.pinsDistinct ∧ readyWorld.eventuallyReady) ∧
      demoString.map (fun c => (Level.HIGH, (validateCharacter avr c).val)) =
        [(Level.HIGH, 0x41), (Level.HIGH, 0x20), (Level.HIGH, 0x42)] ∧
      (∀ fuel, demoHandle.write_String avr fuel readyWorld demoString Hal.start =
        writeChars avr fuel readyWorld demoHandle demoString Hal.start) ∧
      ∃ fuel0 s1,
        (∀ fuel, fuel0 ≤ fuel →
          demoHandle.write_String avr fuel readyWorld demoString Hal.start =
            Outcome.done () s1) ∧
        ∀ b, (busRun demoHandle b s1.trace).transfers =
          (busRun demoHandle b Hal.start.trace).transfers ++
            demoString.map (fun c => (Level.HIGH, (validateCharacter avr c).val)) :=
  ⟨⟨by decide, by decide, by decide, fun k => ⟨k, Nat.le_refl k, rfl⟩⟩, by decide,
    (write_String_all_chars avr (by decide) readyWorld demoHandle demoString (by decide)
      Hal.start).1,
    ((write_String_all_chars avr (by decide) readyWorld demoHandle demoString (by decide)
      Hal.start).2.2 (fun k => ⟨k, Nat.le_refl k, rfl⟩)).imp
      (fun _ h => h.imp (fun _ h1 => ⟨h1.1, h1.2 (by decide)⟩))⟩

/-! ## Character data is printable -/

/-- The byte `validateCharacter` returns lies in [0x20, 0xDF], on every platform. -/
theorem validateCharacter_range (p : Platform) (c : Byte) :
    0x20 ≤ (validateCharacter p c).val ∧ (validateCharacter p c).val ≤ 0xDF := by
  cases h : p.charSigned
  · rw [validateCharacter_unsigned p h]
    split
    · omega
    · decide
  · rw [validateCharacter_signed p h]
    split
    · omega
    · decide

/-- Whatever the outcome of the writes of a list of characters, what has been
transmitted is the validated bytes of the first few of them. -/
theorem writeChars_transfers_any (p : Platform) (self : LiquidCrystalEAX)
    (hd : self.pinsDistinct) (fuel : Nat) (w : World) (cs : List Byte) (s : Hal) (b : Bus) :
    ∃ n, (busRun self b (writeChars p fuel w self cs s).state.trace).transfers =
      (busRun self b s.trace).transfers ++
        (cs.take n).map (fun c => (Level.HIGH, (validateCharacter p c).val)) := by
  induction cs generalizing s with
  | nil => exact ⟨0, by simp [writeChars, Outcome.state]⟩
  | cons c cs ih =>
    have hw := write_transmits p self hd fuel w c s b
    simp only [writeChars]
    cases hc : self.write p fuel w c s with
    | hung s0 =>
      rw [hc] at hw
      exact ⟨1, by simpa [Outcome.bind, Outcome.state] using hw⟩
    | done a s0 =>
      rw [hc] at hw
      simp only [Outcome.state] at hw
      obtain ⟨n, hn⟩ := ih s0
      refine ⟨n + 1, ?_⟩
      simp only [Outcome.bind]
      rw [hn, hw]
      simp

theorem writeChars_printable (p : Platform) (self : LiquidCrystalEAX)
    (hd : self.pinsDistinct) (fuel : Nat) (w : World) (cs : List Byte) :
    strobesPrintableOnly self (writeChars p fuel w self cs) := by
  intro s b
  obtain ⟨n, hn⟩ := writeChars_transfers_any p self hd fuel w cs s b
  refine ⟨_, hn, ?_⟩
  intro x hx
  obtain ⟨c, -, rfl⟩ := List.mem_map.1 hx
  exact ⟨rfl, validateCharacter_range p c⟩

/-- C18: with pairwise distinct pins, on every platform and for every input,
`write(char)`, `write(const char*, byte)` and `write(const String&)` strobe
printable character data only: every transfer they add, whether they return or
not, is latched in character mode and its byte lies in [0x20, 0xDF]. -/
theorem write_strobes_printable (self : LiquidCrystalEAX) (hd : self.pinsDistinct)
    (p : Platform) (fuel : Nat) (w : World) :
    (∀ c : Byte, strobesPrintableOnly self (self.write p fuel w c)) ∧
      (∀ (str : Nat → Byte) (length : Byte),
        strobesPrintableOnly self (self.write_str p fuel w str length)) ∧
      (∀ str : List Byte, strobesPrintableOnly self (self.write_String p fuel w str)) := by
  refine ⟨?_, ?_, ?_⟩
  · intro c s b
    refine ⟨_, write_transmits p self hd fuel w c s b, ?_⟩
    intro x hx
    simp only [List.mem_singleton] at hx
    rw [hx]
    exact ⟨rfl, validateCharacter_range p c⟩
  · intro str length s b
    rw [write_str_eq]
    exact writeChars_printable p self hd fuel w _ s b
  · intro str s b
    rw [write_String_eq]
    exact writeChars_printable p self hd fuel w _ s b

/-- C18 at the pins 2..14, on the AVR platform. -/
theorem write_strobes_printable_witness :
    demoHandle.pinsDistinct ∧
      (∀ c : Byte, strobesPrintableOnly demoHandle (demoHandle.write avr 3 readyWorld c)) ∧
      (∀ (str : Nat → Byte) (length : Byte),
        strobesPrintableOnly demoHandle (demoHandle.write_str avr 3 readyWorld str length)) ∧
      (∀ str : List Byte,
        strobesPrintableOnly demoHandle (demoHandle.write_String avr 3 readyWorld str)) :=
  ⟨by decide, write_strobes_printable demoHandle (by decide) avr 3 readyWorld⟩

end LiquidCrystalEAX

/-! ## The lines after public calls -/

theorem keep_done_iff (self : LiquidCrystalEAX) (o : Outcome Unit) (self1 : LiquidCrystalEAX)
    (s1 : Hal) (h : keep self o = Outcome.done self1 s1) :
    self1 = self ∧ o = Outcome.done () s1 := by
  cases o with
  | hung s => simp [keep, Outcome.bind] at h
  | done a s =>
    simp only [keep, Outcome.bind] at h
    injection h with h1 h2
    exact ⟨h1.symm, by rw [h2]⟩

theorem reset_distinct (self : LiquidCrystalEAX) (hd : self.pinsDistinct) :
    self.m_pinReset ≠ self.m_pinDataSelect ∧ self.m_pinReset ≠ self.m_pinWriteEnable := by
  have h := (List.nodup_append.1 hd).2.1
  simp only [List.nodup_cons, List.mem_cons, List.mem_singleton, not_or] at h
  obtain ⟨⟨h1, h2, h3, h4⟩, ⟨h5, h6, h7⟩, ⟨h8, h9⟩, h10, -⟩ := h
  exact ⟨fun h => h4.1 h.symm, fun h => h9.1 h.symm⟩

/-- A public call that returns keeps the pins of the handle, and either leaves the
lines idle (data-select low, D7 an output driven low) or has made only calls that
leave data-select and D7 alone and do not strobe write-enable. -/
theorem Call.run_lines (p : Platform) (fuel : Nat) (w : World) (c : Call)
    (self : LiquidCrystalEAX) (hd : self.pinsDistinct) (s : Hal) (self1 : LiquidCrystalEAX)
    (s1 : Hal) (h : c.run p fuel w self s = Outcome.done self1 s1) :
    (∃ flag, self1 = { self with m_clockEnabled := flag }) ∧
      (idle self s1.trace ∨
        ∃ evs, s1.trace = s.trace ++ evs ∧ (∀ e ∈ evs, untouched self e) ∧
          Event.digitalWrite self.m_pinWriteEnable Level.LOW ∉ evs) := by
  obtain ⟨hsw, hrw, hsr, hcw, hcs⟩ := LiquidCrystalEAX.control_distinct self hd
  obtain ⟨h7s, h7c, h7w, h7r, h7t⟩ := LiquidCrystalEAX.data_not_control self hd 7
  obtain ⟨hts, htw⟩ := reset_distinct self hd
  have hsame : ∃ flag, self = { self with m_clockEnabled := flag } :=
    ⟨self.m_clockEnabled, rfl⟩
  cases c
  case enableClock =>
    simp only [Call.run, LiquidCrystalEAX.enableClock] at h
    injection h with h1 h2
    refine ⟨⟨true, h1.symm⟩, Or.inr ⟨[Event.tone self.m_pinClock 2000000], ?_, ?_, ?_⟩⟩
    · rw [← h2]
      rfl
    · intro e he
      simp only [List.mem_singleton] at he
      rw [he]
      trivial
    · simp
  case disableClock =>
    simp only [Call.run, LiquidCrystalEAX.disableClock] at h
    injection h with h1 h2
    refine ⟨⟨false, h1.symm⟩, Or.inr ⟨[Event.noTone self.m_pinClock,
      Event.digitalWrite self.m_pinClock Level.LOW], ?_, ?_, ?_⟩⟩
    · rw [← h2]
      simp [noTone, digitalWrite, Hal.emit]
    · intro e he
      simp only [List.mem_cons, List.mem_singleton, List.mem_nil_iff, or_false] at he
      rcases he with rfl | rfl
      · trivial
      · exact ⟨hcs, fun hc => h7c hc.symm⟩
    · simp only [List.mem_cons, List.mem_singleton, List.mem_nil_iff, or_false, not_or]
      refine ⟨by simp, ?_⟩
      intro hc
      injection hc with hc1 hc2
      exact hcw hc1.symm
  case hardReset =>
    simp only [Call.run] at h
    injection h with h1 h2
    refine ⟨⟨self.m_clockEnabled, h1.symm⟩,
      Or.inr ⟨[Event.digitalWrite self.m_pinReset Level.LOW, Event.delay 6,
        Event.digitalWrite self.m_pinReset Level.HIGH, Event.delay 6], ?_, ?_, ?_⟩⟩
    · rw [← h2]
      simp [LiquidCrystalEAX.hardReset, delay, digitalWrite, Hal.emit]
    · intro e he
      simp only [List.mem_cons, List.mem_singleton, List.mem_nil_iff, or_false] at he
      rcases he with rfl | rfl | rfl | rfl
      · exact ⟨hts, fun hc => h7t hc.symm⟩
      · trivial
      · exact ⟨hts, fun hc => h7t hc.symm⟩
      · trivial
    · simp only [List.mem_cons, List.mem_singleton, List.mem_nil_iff, or_false, not_or]
      refine ⟨?_, by simp, by simp, by simp⟩
      intro hc
      injection hc with hc1 hc2
      exact htw hc1.symm
  case init =>
    obtain ⟨h1, h2⟩ := keep_done_iff _ _ _ _ h
    rw [h1]
    exact ⟨hsame, Or.inl (LiquidCrystalEAX.init_idle self hd fuel w s s1 h2)⟩
  case setCursorPos ch line =>
    obtain ⟨h1, h2⟩ := keep_done_iff _ _ _ _ h
    rw [h1]
    exact ⟨hsame, Or.inl (LiquidCrystalEAX.setCursorPos_idle self hd fuel w ch line s s1 h2)⟩
  case useUnderlineCursor blinking =>
    obtain ⟨h1, h2⟩ := keep_done_iff _ _ _ _ h
    rw [h1]
    exact ⟨hsame,
      Or.inl (LiquidCrystalEAX.useUnderlineCursor_idle self hd fuel w blinking s s1 h2)⟩
  case write c =>
    obtain ⟨h1, h2⟩ := keep_done_iff _ _ _ _ h
    rw [h1]
    exact ⟨hsame, Or.inl (LiquidCrystalEAX.write_idle p self hd fuel w c s s1 h2)⟩
  case write_str str length =>
    obtain ⟨h1, h2⟩ := keep_done_iff _ _ _ _ h
    rw [h1]
    rw [LiquidCrystalEAX.write_str_eq] at h2
    refine ⟨hsame, ?_⟩
    rcases LiquidCrystalEAX.writeChars_idle p self hd fuel w _ s s1 h2 with hi | ⟨-, hi⟩
    · exact Or.inl hi
    · exact Or.inr ⟨[], by simp [hi], by simp, by simp⟩
  case write_String str =>
    obtain ⟨h1, h2⟩ := keep_done_iff _ _ _ _ h
    rw [h1]
    rw [LiquidCrystalEAX.write_String_eq] at h2
    refine ⟨hsame, ?_⟩
    rcases LiquidCrystalEAX.writeChars_idle p self hd fuel w _ s s1 h2 with hi | ⟨-, hi⟩
    · exact Or.inl hi
    · exact Or.inr ⟨[], by simp [hi], by simp, by simp⟩
  case moveCursor dist =>
    obtain ⟨h1, h2⟩ := keep_done_iff _ _ _ _ h
    rw [h1]
    unfold LiquidCrystalEAX.moveCursor at h2
    simp only [] at h2
    refine ⟨hsame, ?_⟩
    rcases LiquidCrystalEAX.moveCursorLoop_idle self hd fuel w _ _ _ 0 rfl s s1 h2
      with hi | ⟨-, hi⟩
    · exact Or.inl hi
    · exact Or.inr ⟨[], by simp [hi], by simp, by simp⟩
  all_goals
    obtain ⟨h1, h2⟩ := keep_done_iff _ _ _ _ h
    rw [h1]
    exact ⟨hsame, Or.inl (LiquidCrystalEAX.sendInstruction_idle self hd fuel w _ s s1 h2)⟩

/-- Idle lines stay idle over every sequence of public calls that returns. -/
theorem runCalls_idle (p : Platform) (fuel : Nat) (w : World) (cs : List Call)
    (self : LiquidCrystalEAX) (hd : self.pinsDistinct) (s : Hal) (self1 : LiquidCrystalEAX)
    (s1 : Hal) (h : runCalls p fuel w cs self s = Outcome.done self1 s1)
    (hidle : idle self s.trace) : idle self s1.trace := by
  induction cs generalizing self s with
  | nil =>
    simp only [runCalls] at h
    injection h with h1 h2
    rw [← h2]
    exact hidle
  | cons c cs ih =>
    simp only [runCalls] at h
    obtain ⟨self2, s2, h1, h2⟩ := (LiquidCrystalEAX.bind_eq_done _ _ _ _).1 h
    obtain ⟨⟨flag, hflag⟩, hlines⟩ := Call.run_lines p fuel w c self hd s self2 s2 h1
    have hidle2 : idle self s2.trace := by
      rcases hlines with hi | ⟨evs, he1, he2, -⟩
      · exact hi
      · rw [he1]
        exact LiquidCrystalEAX.idle_append self _ _ hidle he2
    subst hflag
    exact ih { self with m_clockEnabled := flag } hd s2 h2 hidle2

namespace LiquidCrystalEAX

/-- C15: with pairwise distinct pins, `waitUntilNotBusy` ends, whether it returns
true or false, with the two calls that configure D7 as an output and drive it
low; hence after `init()` and any public calls after it, when they return, and
after `setCursorPos` or a character write on their own (whatever the byte they
put on D7), D7 is last configured as an output and last driven low. -/
theorem d7_output_low (self : LiquidCrystalEAX) (hd : self.pinsDistinct) :
    (∀ (fuel : Nat) (w : World) (timeout : Nat) (s : Hal) (r : Bool) (s1 : Hal),
        self.waitUntilNotBusy fuel w timeout s = Outcome.done r s1 →
        ∃ tr, s1.trace = tr ++ [Event.pinMode (self.m_pinData 7) PinMode.OUTPUT,
          Event.digitalWrite (self.m_pinData 7) Level.LOW]) ∧
      (∀ (p : Platform) (fuel : Nat) (w : World) (cs : List Call) (s : Hal)
          (self1 : LiquidCrystalEAX) (s1 : Hal),
        runCalls p fuel w (Call.init :: cs) self s = Outcome.done self1 s1 →
        lastMode (self.m_pinData 7) s1.trace = some PinMode.OUTPUT ∧
          lastLevel (self.m_pinData 7) s1.trace = some Level.LOW) ∧
      (∀ (fuel : Nat) (w : World) (ch line : Byte) (s s1 : Hal),
        self.setCursorPos fuel w ch line s = Outcome.done () s1 →
        lastMode (self.m_pinData 7) s1.trace = some PinMode.OUTPUT ∧
          lastLevel (self.m_pinData 7) s1.trace = some Level.LOW) ∧
      (∀ (p : Platform) (fuel : Nat) (w : World) (c : Byte) (s s1 : Hal),
        self.write p fuel w c s = Outcome.done () s1 →
        lastMode (self.m_pinData 7) s1.trace = some PinMode.OUTPUT ∧
          lastLevel (self.m_pinData 7) s1.trace = some Level.LOW) := by
  refine ⟨?_, ?_, ?_, ?_⟩
  · intro fuel w timeout s r s1 hr
    obtain ⟨evs, h1, -⟩ := waitUntilNotBusy_done_trace fuel w self timeout s r s1 hr
    exact ⟨_, h1⟩
  · intro p fuel w cs s self1 s1 hr
    simp only [runCalls] at hr
    obtain ⟨self2, s2, h1, h2⟩ := (bind_eq_done _ _ _ _).1 hr
    obtain ⟨h3, h4⟩ := keep_done_iff _ _ _ _ h1
    rw [h3] at h2
    have hidle := runCalls_idle p fuel w cs self hd s2 self1 s1 h2
      (init_idle self hd fuel w s s2 h4)
    exact ⟨hidle.2.2, hidle.2.1⟩
  · intro fuel w ch line s s1 hr
    have hidle := setCursorPos_idle self hd fuel w ch line s s1 hr
    exact ⟨hidle.2.2, hidle.2.1⟩
  · intro p fuel w c s s1 hr
    have hidle := write_idle p self hd fuel w c s s1 hr
    exact ⟨hidle.2.2, hidle.2.1⟩

/-- C15 at the pins 2..14 with a ready controller: after `init()` followed by
`setCursorPos(70, 3)`, whose byte 0xC6 has bit 7 set, D7 (pin 9) is an output
driven low. -/
theorem d7_output_low_witness :
    (demoHandle.pinsDistinct ∧
        runCalls avr 3 readyWorld [Call.init, Call.setCursorPos 70 3] demoHandle Hal.start =
          Outcome.done demoHandle
            (demoHandle.setCursorPos 3 readyWorld 70 3
              (demoHandle.init 3 readyWorld Hal.start).state).state) ∧
      lastMode (demoHandle.m_pinData 7)
          (demoHandle.setCursorPos 3 readyWorld 70 3
            (demoHandle.init 3 readyWorld Hal.start).state).state.trace =
        some PinMode.OUTPUT ∧
      lastLevel (demoHandle.m_pinData 7)
          (demoHandle.setCursorPos 3 readyWorld 70 3
            (demoHandle.init 3 readyWorld Hal.start).state).state.trace =
        some Level.LOW := by
  have h1 := done_of_result (demoHandle.init 3 readyWorld Hal.start) () (by decide)
  have h2 := done_of_result (demoHandle.setCursorPos 3 readyWorld 70 3
    (demoHandle.init 3 readyWorld Hal.start).state) () (by decide)
  have hrun : runCalls avr 3 readyWorld [Call.init, Call.setCursorPos 70 3] demoHandle
      Hal.start = Outcome.done demoHandle
        (demoHandle.setCursorPos 3 readyWorld 70 3
          (demoHandle.init 3 readyWorld Hal.start).state).state := by
    simp only [runCalls, Call.run, keep]
    conv_lhs => rw [h1]
    simp only [Outcome.bind]
    conv_lhs => rw [h2]
  exact ⟨⟨by decide, hrun⟩,
    (d7_output_low demoHandle (by decide)).2.1 avr 3 readyWorld [Call.setCursorPos 70 3]
      Hal.start demoHandle _ hrun⟩

/-- C19: with pairwise distinct pins, after every public call that returns,
either the last level driven on data-select is low (instruction mode) or the
call has performed no transfer; and data-select is last driven low after every
command, `setCursorPos`, `init`, `write(char)`, and the writes of a buffer or of a
string object that hold at least one character. -/
theorem data_select_low_after_transfer (self : LiquidCrystalEAX) (hd : self.pinsDistinct)
    (p : Platform) (fuel : Nat) (w : World) :
    (∀ (c : Call) (s : Hal) (self1 : LiquidCrystalEAX) (s1 : Hal),
        c.run p fuel w self s = Outcome.done self1 s1 →
        lastLevel self.m_pinDataSelect s1.trace = some Level.LOW ∨
          ∀ b, (busRun self b s1.trace).transfers = (busRun self b s.trace).transfers) ∧
      (∀ (cmd : Command) (s s1 : Hal),
        self.sendInstruction fuel w cmd s = Outcome.done () s1 →
        lastLevel self.m_pinDataSelect s1.trace = some Level.LOW) ∧
      (∀ (ch line : Byte) (s s1 : Hal),
        self.setCursorPos fuel w ch line s = Outcome.done () s1 →
        lastLevel self.m_pinDataSelect s1.trace = some Level.LOW) ∧
      (∀ (s s1 : Hal), self.init fuel w s = Outcome.done () s1 →
        lastLevel self.m_pinDataSelect s1.trace = some Level.LOW) ∧
      (∀ (c : Byte) (s s1 : Hal), self.write p fuel w c s = Outcome.done () s1 →
        lastLevel self.m_pinDataSelect s1.trace = some Level.LOW) ∧
      (∀ (str : Nat → Byte) (length : Byte) (s s1 : Hal),
        firstNull str length.val ≠ 0 →
        self.write_str p fuel w str length s = Outcome.done () s1 →
        lastLevel self.m_pinDataSelect s1.trace = some Level.LOW) ∧
      (∀ (str : List Byte) (s s1 : Hal),
        1 ≤ p.intBits → (str.length : Int) ≤ intMax p → str ≠ [] →
        self.write_String p fuel w str s = Outcome.done () s1 →
        lastLevel self.m_pinDataSelect s1.trace = some Level.LOW) := by
  refine ⟨?_, ?_, ?_, ?_, ?_, ?_, ?_⟩
  · intro c s self1 s1 hr
    rcases (Call.run_lines p fuel w c self hd s self1 s1 hr).2 with hi | ⟨evs, h1, -, h3⟩
    · exact Or.inl hi.1
    · refine Or.inr (fun b => ?_)
      rw [h1, busRun_append, busRun_no_strobe self evs h3]
  · intro cmd s s1 hr
    exact (sendInstruction_idle self hd fuel w cmd s s1 hr).1
  · intro ch line s s1 hr
    exact (setCursorPos_idle self hd fuel w ch line s s1 hr).1
  · intro s s1 hr
    exact (init_idle self hd fuel w s s1 hr).1
  · intro c s s1 hr
    exact (write_idle p self hd fuel w c s s1 hr).1
  · intro str length s s1 hk hr
    rw [write_str_eq] at hr
    rcases writeChars_idle p self hd fuel w _ s s1 hr with hi | ⟨hnil, -⟩
    · exact hi.1
    · exfalso
      apply hk
      simpa using congrArg List.length hnil
  · intro str s s1 hp hlen hne hr
    rw [write_String_eq_chars p hp fuel w self str hlen s] at hr
    rcases writeChars_idle p self hd fuel w _ s s1 hr with hi | ⟨hnil, -⟩
    · exact hi.1
    · exact absurd hnil hne

/-- C19 at the pins 2..14 with a ready controller: after `write('a')`, a transfer
in character mode, data-select (pin 10) is last driven low. -/
theorem data_select_low_after_transfer_witness :
    (demoHandle.pinsDistinct ∧
        demoHandle.write avr 3 readyWorld 0x61 Hal.start =
          Outcome.done () (demoHandle.write avr 3 readyWorld 0x61 Hal.start).state) ∧
      lastLevel demoHandle.m_pinDataSelect
        (demoHandle.write avr 3 readyWorld 0x61 Hal.start).state.trace = some Level.LOW :=
  ⟨⟨by decide, done_of_result _ () (by decide)⟩,
    (data_select_low_after_transfer demoHandle (by decide) avr 3 readyWorld).2.2.2.2.1 0x61
      Hal.start _ (done_of_result _ () (by decide))⟩

/-! ## The poll results do not steer the operations -/

theorem busWrites_append (self : LiquidCrystalEAX) (a b : List Event) :
    busWrites self (a ++ b) = busWrites self a ++ busWrites self b := by
  simp [busWrites]

/-- The loop of the busy-poll writes to read-enable only. -/
theorem waitLoop_busWrites (w : World) (self : LiquidCrystalEAX) (start timeout : Nat)
    (fuel : Nat) (busyState : Level) (s : Hal) :
    busWrites self (waitLoop w self start timeout fuel busyState s).state.trace =
      busWrites self s.trace := by
  induction fuel generalizing busyState s with
  | zero => rfl
  | succ fuel ih =>
    rw [waitLoop_succ]
    by_cases hb : busyState = Level.HIGH
    · by_cases hc : (if (millis w s).1 < start then 1 else 0) < timeout
      · rw [if_pos hb, if_pos hc, ih]
        simp [busWrites, isBusWrite, disableBusyRead, enableBusyRead, digitalRead, millis,
          digitalWrite, delayMicroseconds, Hal.emit]
      · rw [if_pos hb, if_neg hc]
        simp [busWrites, isBusWrite, Outcome.state, millis]
    · rw [if_neg hb]
      rfl

/-- The writes of a busy-poll that returns to the lines of the bus are the same
whatever the clock and the busy flag did: data-select low, then D7 low. -/
theorem waitUntilNotBusy_busWrites (fuel : Nat) (w : World) (self : LiquidCrystalEAX)
    (timeout : Nat) (s : Hal) (r : Bool) (s1 : Hal)
    (hr : self.waitUntilNotBusy fuel w timeout s = Outcome.done r s1) :
    busWrites self s1.trace = busWrites self s.trace ++
      busWrites self [Event.digitalWrite self.m_pinDataSelect Level.LOW,
        Event.digitalWrite (self.m_pinData 7) Level.LOW] := by
  unfold waitUntilNotBusy at hr
  simp only [] at hr
  obtain ⟨a, s0, h1, h2⟩ := (bind_eq_done _ _ _ _).1 hr
  have h3 := waitLoop_busWrites w self (millis w s).1 timeout fuel Level.HIGH
    (enableInstructionData self (pinMode (self.m_pinData 7) PinMode.INPUT_PULLUP (millis w s).2))
  rw [h1] at h3
  simp only [Outcome.state] at h3
  injection h2 with h5 h6
  rw [← h6]
  have h7 : (digitalWrite (self.m_pinData 7) Level.LOW
      (pinMode (self.m_pinData 7) PinMode.OUTPUT s0)).trace =
      s0.trace ++ [Event.pinMode (self.m_pinData 7) PinMode.OUTPUT,
        Event.digitalWrite (self.m_pinData 7) Level.LOW] := by
    simp [digitalWrite, pinMode, Hal.emit]
  have h8 : (enableInstructionData self
      (pinMode (self.m_pinData 7) PinMode.INPUT_PULLUP (millis w s).2)).trace =
      s.trace ++ [Event.millis (w.millisAt s.millisCalls % 4294967296),
        Event.pinMode (self.m_pinData 7) PinMode.INPUT_PULLUP,
        Event.digitalWrite self.m_pinDataSelect Level.LOW, Event.delayMicroseconds 10] := by
    simp [enableInstructionData, digitalWrite, delayMicroseconds, pinMode, millis, Hal.emit]
  rw [h7, busWrites_append, h3, h8, busWrites_append]
  simp [busWrites, isBusWrite, List.filter_cons]
  split_ifs <;> rfl

theorem poll_busWrites (fuel : Nat) (w : World) (self : LiquidCrystalEAX) (s s1 : Hal)
    (hr : poll fuel w self s = Outcome.done () s1) :
    busWrites self s1.trace = busWrites self s.trace ++
      busWrites self [Event.digitalWrite self.m_pinDataSelect Level.LOW,
        Event.digitalWrite (self.m_pinData 7) Level.LOW] := by
  unfold poll at hr
  obtain ⟨a, s0, h1, h2⟩ := (bind_eq_done _ _ _ _).1 hr
  injection h2 with h3 h4
  rw [← h4]
  exact waitUntilNotBusy_busWrites fuel w self 100 s a s0 h1

/-- The writes of `write(c)` to the lines of the bus, when it returns. -/
theorem write_busWrites (p : Platform) (fuel : Nat) (w : World) (self : LiquidCrystalEAX)
    (c : Byte) (s s1 : Hal) (hr : self.write p fuel w c s = Outcome.done () s1) :
    busWrites self s1.trace = busWrites self s.trace ++
      busWrites self (transferEvents self Level.HIGH (validateCharacter p c) ++
        [Event.digitalWrite self.m_pinDataSelect Level.LOW,
         Event.digitalWrite (self.m_pinData 7) Level.LOW]) := by
  rw [write_eq] at hr
  obtain ⟨a, s0, h1, h2⟩ := (bind_eq_done _ _ _ _).1 hr
  injection h2 with h3 h4
  rw [← h4]
  have h5 := poll_busWrites fuel w self _ s0 h1
  simp only [Hal.emits] at h5 ⊢
  rw [busWrites_append, h5, busWrites_append, busWrites_append]
  simp [busWrites, isBusWrite]

/-- The writes of `sendInstruction(cmd)` to the lines of the bus, when it returns. -/
theorem sendInstruction_busWrites (fuel : Nat) (w : World) (self : LiquidCrystalEAX)
    (cmd : Command) (s s1 : Hal) (hr : self.sendInstruction fuel w cmd s = Outcome.done () s1) :
    busWrites self s1.trace = busWrites self s.trace ++
      busWrites self (transferEvents self Level.LOW cmd.toByte ++
        [Event.digitalWrite self.m_pinDataSelect Level.LOW,
         Event.digitalWrite (self.m_pinData 7) Level.LOW]) := by
  rw [sendInstruction_eq] at hr
  have h5 := poll_busWrites fuel w self _ s1 hr
  simp only [Hal.emits] at h5
  rw [h5, busWrites_append, busWrites_append]
  simp

/-- Two returning runs of the writes of a list of characters, under any two
behaviours of the clock and the busy flag, make the same writes to the lines of
the bus. -/
theorem writeChars_busWrites (p : Platform) (self : LiquidCrystalEAX) (w1 w2 : World)
    (fuel1 fuel2 : Nat) (cs : List Byte) (sa sb s1 s2 : Hal)
    (h : busWrites self sa.trace = busWrites self sb.trace)
    (h1 : writeChars p fuel1 w1 self cs sa = Outcome.done () s1)
    (h2 : writeChars p fuel2 w2 self cs sb = Outcome.done () s2) :
    busWrites self s1.trace = busWrites self s2.trace := by
  induction cs generalizing sa sb with
  | nil =>
    simp only [writeChars] at h1 h2
    injection h1 with _ h1
    injection h2 with _ h2
    rw [← h1, ← h2]
    exact h
  | cons c cs ih =>
    simp only [writeChars] at h1 h2
    obtain ⟨_, ta, h3, h4⟩ := (bind_eq_done _ _ _ _).1 h1
    obtain ⟨_, tb, h5, h6⟩ := (bind_eq_done _ _ _ _).1 h2
    apply ih ta tb _ h4 h6
    rw [write_busWrites p fuel1 w1 self c sa ta h3, write_busWrites p fuel2 w2 self c sb tb h5,
      h]

/-- Two returning runs of the loop of `moveCursor`, under any two behaviours of
the clock and the busy flag, make the same writes to the lines of the bus and
latch the same transfers. -/
theorem moveCursorLoop_same (self : LiquidCrystalEAX) (w1 w2 : World) (fuel1 fuel2 : Nat)
    (cmd : Command) (dist : Int) (d : Nat) (i : Int) (hi : (dist - i).toNat = d)
    (sa sb s1 s2 : Hal) (h : busWrites self sa.trace = busWrites self sb.trace)
    (h1 : self.moveCursorLoop fuel1 w1 cmd dist i sa = Outcome.done () s1)
    (h2 : self.moveCursorLoop fuel2 w2 cmd dist i sb = Outcome.done () s2) :
    busWrites self s1.trace = busWrites self s2.trace := by
  induction d generalizing i sa sb with
  | zero =>
    rw [moveCursorLoop, if_neg (by omega)] at h1 h2
    injection h1 with _ h1
    injection h2 with _ h2
    rw [← h1, ← h2]
    exact h
  | succ d ih =>
    rw [moveCursorLoop, if_pos (by omega)] at h1 h2
    obtain ⟨_, ta, h3, h4⟩ := (bind_eq_done _ _ _ _).1 h1
    obtain ⟨_, tb, h5, h6⟩ := (bind_eq_done _ _ _ _).1 h2
    apply ih (i + 1) (by omega) ta tb _ h4 h6
    rw [sendInstruction_busWrites fuel1 w1 self cmd sa ta h3,
      sendInstruction_busWrites fuel2 w2 self cmd sb tb h5, h]

/-- C14: the result of a busy-poll is not used: `doWrite` drops it. For any two
behaviours of the clock and the busy flag (and any fuel) under which
`write(str, length)` returns, the two runs make the same writes to the lines of
the bus (data-select, D0..D7, write-enable), in the same order, and with pairwise
distinct pins both have latched exactly the validated bytes of the first
characters of the buffer, once each, in character mode; likewise two returning
runs of `moveCursor(n)` make the same writes and latch the same transfers. -/
theorem poll_results_do_not_steer (p : Platform) (self : LiquidCrystalEAX) (w1 w2 : World)
    (fuel1 fuel2 : Nat) (s : Hal) :
    (∀ (fuel : Nat) (w : World) (s0 : Hal),
        self.doWrite fuel w s0 =
          (self.waitUntilNotBusy fuel w 100 (s0.emits
            [.digitalWrite self.m_pinWriteEnable .LOW, .delayMicroseconds 10,
             .digitalWrite self.m_pinWriteEnable .HIGH, .delayMicroseconds 10])).bind
            (fun _ s1 => Outcome.done () s1)) ∧
      (∀ (str : Nat → Byte) (length : Byte) (s1 s2 : Hal),
        self.write_str p fuel1 w1 str length s = Outcome.done () s1 →
        self.write_str p fuel2 w2 str length s = Outcome.done () s2 →
        busWrites self s1.trace = busWrites self s2.trace ∧
          (self.pinsDistinct → ∀ b,
            (busRun self b s1.trace).transfers =
                (busRun self b s.trace).transfers ++
                  ((List.range (firstNull str length.val)).map str).map
                    (fun c => (Level.HIGH, (validateCharacter p c).val)) ∧
              (busRun self b s2.trace).transfers =
                (busRun self b s.trace).transfers ++
                  ((List.range (firstNull str length.val)).map str).map
                    (fun c => (Level.HIGH, (validateCharacter p c).val)))) ∧
      (∀ (n : Int) (s1 s2 : Hal),
        self.moveCursor p fuel1 w1 n s = Outcome.done () s1 →
        self.moveCursor p fuel2 w2 n s = Outcome.done () s2 →
        busWrites self s1.trace = busWrites self s2.trace ∧
          (self.pinsDistinct → ∀ b,
            (busRun self b s1.trace).transfers = (busRun self b s2.trace).transfers)) := by
  refine ⟨?_, ?_, ?_⟩
  · intro fuel w s0
    simp [doWrite, digitalWrite, delayMicroseconds, emit_eq_emits, emits_emits]
  · intro str length s1 s2 h1 h2
    rw [write_str_eq] at h1 h2
    refine ⟨writeChars_busWrites p self w1 w2 fuel1 fuel2 _ s s s1 s2 rfl h1 h2, ?_⟩
    intro hd b
    exact ⟨writeChars_transfers p self hd fuel1 w1 _ s s1 h1 b,
      writeChars_transfers p self hd fuel2 w2 _ s s2 h2 b⟩
  · intro n s1 s2 h1 h2
    unfold moveCursor at h1 h2
    simp only [] at h1 h2
    refine ⟨moveCursorLoop_same self w1 w2 fuel1 fuel2 _ _ _ 0 rfl s s s1 s2 rfl h1 h2, ?_⟩
    intro hd b
    rw [moveCursorLoop_transfers self hd fuel1 w1 _ _ _ 0 rfl s s1 h1 b,
      moveCursorLoop_transfers self hd fuel2 w2 _ _ _ 0 rfl s s2 h2 b]

/-- C14 on the buffer "AB\0CD" with length 5, at the pins 2..14: one run with a
controller that is never busy, one with a controller that stays busy for five
samples. -/
theorem poll_results_do_not_steer_witness :
    (demoHandle.pinsDistinct ∧
        demoHandle.write_str avr 3 readyWorld demoBuffer 5 Hal.start =
          Outcome.done ()
            (writeChars avr 3 readyWorld demoHandle [0x41, 0x42] Hal.start).state ∧
        demoHandle.write_str avr 10 lateWorld demoBuffer 5 Hal.start =
          Outcome.done ()
            (writeChars avr 10 lateWorld demoHandle [0x41, 0x42] Hal.start).state) ∧
      busWrites demoHandle
          (writeChars avr 3 readyWorld demoHandle [0x41, 0x42] Hal.start).state.trace =
        busWrites demoHandle
          (writeChars avr 10 lateWorld demoHandle [0x41, 0x42] Hal.start).state.trace := by
  have hl : (List.range (firstNull demoBuffer (5 : Byte).val)).map demoBuffer = [0x41, 0x42] := by
    decide
  have h1 : demoHandle.write_str avr 3 readyWorld demoBuffer 5 Hal.start =
      Outcome.done () (writeChars avr 3 readyWorld demoHandle [0x41, 0x42] Hal.start).state := by
    rw [write_str_eq, hl]
    exact done_of_result _ () (by decide)
  have h2 : demoHandle.write_str avr 10 lateWorld demoBuffer 5 Hal.start =
      Outcome.done () (writeChars avr 10 lateWorld demoHandle [0x41, 0x42] Hal.start).state := by
    rw [write_str_eq, hl]
    exact done_of_result _ () (by decide)
  exact ⟨⟨by decide, h1, h2⟩,
    ((poll_results_do_not_steer avr demoHandle readyWorld lateWorld 3 10 Hal.start).2.1
      demoBuffer 5 _ _ h1 h2).1⟩

end LiquidCrystalEAX

end EAX
